import Mathlib

/-!
Verification development for the `rbroggi/web-crawler` repository.

The development has two layers.

1. A shallow embedding of the pure URL helpers of `crawler/crawler.go`:
   `GetLinkAbsoluteUrl` and `isSameDomain`, together with the fragment of
   Go's `net/url` (`Parse`, `URL.Parse`, `ResolveReference`, `resolvePath`,
   Go 1.14) and of Go's `path` package (`Clean`, `Dir`, `Join`) that these
   two functions call.  Strings are modelled as `List Char`; the modelled
   URL fragment covers scheme, authority host and path (query, fragment,
   userinfo and percent-escaping do not occur in any input considered here
   and are not modelled).

2. A small-step operational semantics, with nondeterministic interleaving,
   of the two traversal engines of the repository:
   * strategy A, `(*crawler).Crawl` / `recursiveVisit` (unbounded recursive
     fan-out guarded by an RWMutex-protected visited map), and
   * strategy B, `(*cyclicCrawler).Crawl` / `dispatchScrapperGoRoutines` /
     `scrapePage` (bounded worker pool with a buffered candidate channel,
     a token semaphore and an atomic live-goroutine counter).
   The fetch + link-extraction + resolution + domain-filter pipeline
   (`getPage`, `GetPageLinks`, `GetLinkAbsoluteUrl`, collaborators the
   engine treats as external) is abstracted by a `PageGraph`: `fetch u`
   is `none` when `getPage` fails for `u` and `some ls` when it succeeds
   and the page yields the resolved candidate links `ls`; `host u` is the
   `Host` component of `u` used by `isSameDomain`.  A fetch attempted
   after cancellation fails, which models an HTTP client honouring an
   already-cancelled context.  Each transition of the step relations is
   one synchronization-relevant action of the Go code; adjacent purely
   local computations are compressed into single steps.
-/

namespace WebCrawler

/-! ### Characters and small string utilities (Go `strings` fragments) -/

/-- Strings of the Go source, modelled as lists of characters. -/
abbrev Chars := List Char

/-- Test `'a' <= c && c <= 'z' || 'A' <= c && c <= 'Z'` as in `net/url.getScheme`. -/
def isAlphaCh (c : Char) : Bool :=
  ('a' ≤ c && c ≤ 'z') || ('A' ≤ c && c ≤ 'Z')

/-- Test `'0' <= c && c <= '9'` as in `net/url.getScheme`. -/
def isDigitCh (c : Char) : Bool :=
  '0' ≤ c && c ≤ '9'

/-- Does the string start with the single character `c`?  Models
`strings.HasPrefix(s, "/")`-style checks for a one-character pattern. -/
def startsWithCh (c : Char) : Chars → Bool
  | [] => false
  | a :: _ => a = c

/-- Does the string start with the two characters `c`, `d`?  Models
`strings.HasPrefix(s, "//")`. -/
def startsWith2 (c d : Char) : Chars → Bool
  | a :: b :: _ => a = c && b = d
  | _ => false

/-- Does the string start with the three characters `c`, `d`, `e`?  Models
`strings.HasPrefix(s, "///")`. -/
def startsWith3 (c d e : Char) : Chars → Bool
  | a :: b :: f :: _ => a = c && b = d && f = e
  | _ => false

/-- Split a string on every occurrence of `sep`; models `strings.Split`.
`splitOnChar '/' "a/b"` is `["a", "b"]`, and the result is never empty. -/
def splitOnChar (sep : Char) : Chars → List Chars
  | [] => [[]]
  | c :: cs =>
    match splitOnChar sep cs, decEq c sep with
    | r, isTrue _ => [] :: r
    | [], isFalse _ => [[c]]
    | h :: t, isFalse _ => (c :: h) :: t

/-- Join a list of strings with `'/'`; models `strings.Join(xs, "/")`. -/
def joinSlash : List Chars → Chars
  | [] => []
  | [x] => x
  | x :: xs => x ++ '/' :: joinSlash xs

/-- Cut a string at the first occurrence of `sep`, keeping the separator at
the start of the second component; models `split(s, "/", false)` of
Go 1.14 `net/url` (used when extracting the authority). -/
def cutKeep (sep : Char) : Chars → Chars × Chars
  | [] => ([], [])
  | c :: cs =>
    if c = sep then ([], c :: cs)
    else
      let p := cutKeep sep cs
      (c :: p.1, p.2)

/-- The portion of `s` up to and including its last `'/'`, empty when `s`
has no slash; models `base[:strings.LastIndex(base, "/")+1]`. -/
def upToLastSlash (s : Chars) : Chars :=
  (s.reverse.dropWhile (fun c => c ≠ '/')).reverse

/-- Drop one leading `'/'` if present; models `strings.TrimPrefix(s, "/")`. -/
def dropOneSlash : Chars → Chars
  | '/' :: rest => rest
  | s => s

/-! ### Go `path` package fragment: `Clean`, `Dir`, `Join` -/

/-- Segment-level processing loop of `path.Clean`: empty and `"."` segments
are dropped, `".."` pops the previous segment when possible (never popping
below the root of a rooted path, and accumulating leading `".."` segments
in a relative path), all other segments are appended. -/
def cleanSegs (rooted : Bool) : List Chars → List Chars → List Chars
  | out, [] => out
  | out, seg :: rest =>
    if seg = [] || seg = ['.'] then cleanSegs rooted out rest
    else if seg = ['.', '.'] then
      match out.getLast? with
      | some lastSeg =>
        if lastSeg = ['.', '.'] then cleanSegs rooted (out ++ [seg]) rest
        else cleanSegs rooted out.dropLast rest
      | none => if rooted then cleanSegs rooted out rest else cleanSegs rooted [seg] rest
    else cleanSegs rooted (out ++ [seg]) rest

/-- Go `path.Clean`.  Returns `"."` for an empty result, keeps a rooted
path rooted, and never emits a trailing slash. -/
def goPathClean (p : Chars) : Chars :=
  if p = [] then ['.']
  else
    let rooted := startsWithCh '/' p
    let out := cleanSegs rooted [] (splitOnChar '/' p)
    let s := joinSlash out
    if rooted then '/' :: s
    else if s = [] then ['.'] else s

/-- Go `path.Dir`: everything up to the final slash, cleaned. -/
def goPathDir (p : Chars) : Chars :=
  goPathClean (upToLastSlash p)

/-- Go `path.Join` restricted to two arguments, which is how
`GetLinkAbsoluteUrl` calls it: empty arguments are skipped and the
slash-joined remainder is cleaned; all-empty input yields the empty path. -/
def goPathJoin2 (a b : Chars) : Chars :=
  if a = [] then (if b = [] then [] else goPathClean b)
  else goPathClean (a ++ '/' :: b)

/-! ### Go `net/url` fragment (Go 1.14): `Parse`, `ResolveReference` -/

/-- A parsed URL: the `Scheme`, `Opaque`, `Host` and `Path` fields of Go's
`url.URL`, for inputs without query, fragment, userinfo or escapes. -/
structure GoURL where
  scheme : Chars
  opq : Chars
  host : Chars
  path : Chars
deriving DecidableEq, Repr

/-- The loop of `net/url.getScheme`: scan for a `':'` ending an
alpha-led scheme; bail out returning the whole input as the remainder on
the first character that cannot occur in a scheme (or on a digit, `'+'`,
`'-'`, `'.'` in the first position); a `':'` in the first position is the
`missing protocol scheme` error. -/
def getSchemeAux (raw : Chars) : Chars → Chars → Except String (Chars × Chars)
  | _, [] => .ok ([], raw)
  | acc, c :: cs =>
    if isAlphaCh c then getSchemeAux raw (acc ++ [c]) cs
    else if isDigitCh c || c = '+' || c = '-' || c = '.' then
      (if acc = [] then .ok ([], raw) else getSchemeAux raw (acc ++ [c]) cs)
    else if c = ':' then
      (if acc = [] then .error "missing protocol scheme"
       else .ok (acc, cs))
    else .ok ([], raw)

/-- `net/url.getScheme`: split `"scheme:rest"`. -/
def getScheme (raw : Chars) : Except String (Chars × Chars) :=
  getSchemeAux raw [] raw

/-- The host of an authority: the part after the last `'@'`; models
`parseAuthority` discarding userinfo (host validation and unescaping are
not modelled: no input considered here has an escaped or invalid host). -/
def hostOfAuthority (auth : Chars) : Chars :=
  (auth.reverse.takeWhile (fun c => c ≠ '@')).reverse

/-- `stringContainsCTLByte`: a control character (below space, or DEL)
anywhere makes `net/url.Parse` fail. -/
def isCTLByte (c : Char) : Bool :=
  c < ' ' || c = Char.ofNat 0x7f

/-- Test for an ASCII hexadecimal digit, as `net/url.ishex`. -/
def isHexDigit (c : Char) : Bool :=
  ('0' ≤ c && c ≤ '9') || ('a' ≤ c && c ≤ 'f') || ('A' ≤ c && c ≤ 'F')

/-- Value of an ASCII hexadecimal digit, as `net/url.unhex`. -/
def hexVal (c : Char) : Nat :=
  if '0' ≤ c && c ≤ '9' then c.toNat - '0'.toNat
  else if 'a' ≤ c && c ≤ 'f' then c.toNat - 'a'.toNat + 10
  else if 'A' ≤ c && c ≤ 'F' then c.toNat - 'A'.toNat + 10
  else 0

/-- `net/url.unescape` as invoked by `URL.setPath`: a `'%'` must be
followed by two hexadecimal digits (otherwise the
`invalid URL escape` error), and a valid escape decodes to the escaped
byte. -/
def unescapePath : Chars → Except String Chars
  | [] => .ok []
  | '%' :: c1 :: c2 :: rest =>
    if isHexDigit c1 && isHexDigit c2 then
      match unescapePath rest with
      | .error e => .error e
      | .ok r => .ok (Char.ofNat (16 * hexVal c1 + hexVal c2) :: r)
    else .error "invalid URL escape"
  | '%' :: _ => .error "invalid URL escape"
  | c :: rest =>
    match unescapePath rest with
    | .error e => .error e
    | .ok r => .ok (c :: r)

/-- The tail of `net/url.parse` after the scheme has been removed: extract
the `//authority` when present, otherwise everything is the path; the
path goes through `setPath`, whose escape validation can fail. -/
def finishParse (scheme rest : Chars) : Except String GoURL :=
  if (scheme ≠ [] || !(startsWith3 '/' '/' '/' rest)) && startsWith2 '/' '/' rest then
    let after := rest.drop 2
    let p := cutKeep '/' after
    match unescapePath p.2 with
    | .error e => .error e
    | .ok pth => .ok ⟨scheme, [], hostOfAuthority p.1, pth⟩
  else
    match unescapePath rest with
    | .error e => .error e
    | .ok pth => .ok ⟨scheme, [], [], pth⟩

/-- `net/url.Parse` (Go 1.14, `viaRequest = false`) on the modelled URL
fragment: reject control characters; split the scheme; a rootless
remainder with a scheme is opaque (kept verbatim, as in Go); a rootless
remainder without a scheme must not have a `':'` in its first path
segment; then extract authority and path, validating and decoding
percent-escapes in the path.  Query and fragment splitting is not
modelled: no input considered here contains `'?'` or `'#'`. -/
def urlParse (raw : Chars) : Except String GoURL :=
  if raw.any isCTLByte then .error "net/url: invalid control character in URL"
  else
    match getScheme raw with
    | .error e => .error e
    | .ok (scheme0, rest) =>
      let scheme := scheme0.map Char.toLower
      if startsWithCh '/' rest then finishParse scheme rest
      else if scheme ≠ [] then .ok ⟨scheme, rest, [], []⟩
      else if ':' ∈ (cutKeep '/' rest).1 then
        .error "first path segment in URL cannot contain colon"
      else finishParse scheme rest

/-- `net/url.resolvePath` (Go 1.14): join `ref` onto the directory of
`base` (unless `ref` is empty or rooted), then process `"."` and `".."`
segments over the split path and re-root the result. -/
def resolvePathSegs : List Chars → List Chars → List Chars
  | dst, [] => dst
  | dst, e :: rest =>
    if e = ['.'] then resolvePathSegs dst rest
    else if e = ['.', '.'] then resolvePathSegs dst.dropLast rest
    else resolvePathSegs (dst ++ [e]) rest

/-- `net/url.resolvePath` (Go 1.14). -/
def resolvePath (base ref : Chars) : Chars :=
  let full :=
    if ref = [] then base
    else if startsWithCh '/' ref then ref
    else upToLastSlash base ++ ref
  if full = [] then []
  else
    let src := splitOnChar '/' full
    let dst := resolvePathSegs [] src
    let dst := if src.getLast? = some ['.'] || src.getLast? = some ['.', '.']
               then dst ++ [[]] else dst
    '/' :: dropOneSlash (joinSlash dst)

/-- `(*url.URL).ResolveReference` (Go 1.14) on the modelled fragment:
a reference with its own scheme or host keeps its authority and cleaned
path; an opaque reference is kept as is; otherwise the base supplies
scheme and host and the paths are merged by `resolvePath`. -/
def resolveReference (u ref : GoURL) : GoURL :=
  let scheme := if ref.scheme = [] then u.scheme else ref.scheme
  if ref.scheme ≠ [] || ref.host ≠ [] then
    ⟨scheme, ref.opq, ref.host, resolvePath ref.path []⟩
  else if ref.opq ≠ [] then ⟨scheme, ref.opq, [], []⟩
  else ⟨scheme, ref.opq, u.host, resolvePath u.path ref.path⟩

/-- `(*url.URL).Parse`: parse the reference and resolve it against `u`. -/
def parentParse (u : GoURL) (ref : Chars) : Except String GoURL :=
  match urlParse ref with
  | .error e => .error e
  | .ok r => .ok (resolveReference u r)

/-- `(*url.URL).IsAbs`: the URL has a scheme. -/
def IsAbs (u : GoURL) : Bool := u.scheme ≠ []

/-- `crawler.GetLinkAbsoluteUrl`: parse the link; return it verbatim when
absolute; resolve it against the parent when it starts with `'/'`;
otherwise join it to the directory of the parent path and resolve. -/
def GetLinkAbsoluteUrl (parent : GoURL) (link : Chars) : Except String GoURL :=
  match urlParse link with
  | .error e => .error e
  | .ok r =>
    if IsAbs r then .ok r
    else if startsWithCh '/' link then parentParse parent link
    else parentParse parent (goPathJoin2 (goPathDir parent.path) link)

/-- `crawler.isSameDomain`: `nil` on either side is `false`, otherwise
compare the `Host` fields. -/
def isSameDomain : Option GoURL → Option GoURL → Bool
  | some p, some u => p.host = u.host
  | _, _ => false

/-- The base URL `https://my-web-site.com/test` of the resolution table in
the specification and in `Test_getLinkAbsoluteUrl`. -/
def exampleBase : GoURL :=
  ⟨"https".data, [], "my-web-site.com".data, "/test".data⟩

/-- The result `https://my-web-site.com/i/business` of the resolution
table. -/
def exampleResolved : GoURL :=
  ⟨"https".data, [], "my-web-site.com".data, "/i/business".data⟩

/-- A character on which `getScheme` bails out, returning the whole input
as the scheme-less remainder. -/
lemma getSchemeAux_bail (raw acc : Chars) (c : Char) (cs : Chars)
    (h1 : isAlphaCh c = false)
    (h2 : (isDigitCh c || c = '+' || c = '-' || c = '.') = false)
    (h3 : c ≠ ':') :
    getSchemeAux raw acc (c :: cs) = .ok ([], raw) := by
  simp only [getSchemeAux, h1, h2, Bool.false_eq_true, if_false]
  simp [h3]

/-- A string starting with `'/'` has no scheme. -/
lemma getScheme_slash (t : Chars) : getScheme ('/' :: t) = .ok ([], '/' :: t) :=
  getSchemeAux_bail _ _ _ _ (by decide) (by decide) (by decide)

/-- On a root-relative reference that is not protocol-relative,
`finishParse` takes the no-authority branch. -/
lemma finishParse_rootSlash (t : Chars) (h2 : startsWith2 '/' '/' ('/' :: t) = false) :
    finishParse [] ('/' :: t) =
      match unescapePath ('/' :: t) with
      | .error e => .error e
      | .ok pth => .ok ⟨[], [], [], pth⟩ := by
  unfold finishParse
  simp [h2]

/-- A successfully parsed root-relative reference that is not
protocol-relative has no scheme, no opaque part and no host. -/
lemma urlParse_rootSlash (t : Chars) (r : GoURL)
    (h2 : startsWith2 '/' '/' ('/' :: t) = false)
    (hp : urlParse ('/' :: t) = .ok r) :
    r.scheme = [] ∧ r.opq = [] ∧ r.host = [] := by
  unfold urlParse at hp
  split at hp
  · exact Except.noConfusion hp
  · simp only [getScheme_slash, List.map_nil, startsWithCh, decide_eq_true_eq, if_pos] at hp
    rw [finishParse_rootSlash t h2] at hp
    split at hp
    · exact Except.noConfusion hp
    · injection hp with hp
      subst hp
      exact ⟨rfl, rfl, rfl⟩

/-- C6: `GetLinkAbsoluteUrl` returns an absolute `rawHref` verbatim for
every base, resolves a root-relative href against the host root and a bare
href sibling-relative to the directory of the base path, and rejects
`://bad`; on the specification table with base `https://my-web-site.com/test`
the three resolving hrefs all yield `https://my-web-site.com/i/business`. -/
theorem C6_resolution :
    urlParse "https://my-web-site.com/test".data = .ok exampleBase ∧
    (∀ p : GoURL,
      GetLinkAbsoluteUrl p "https://my-web-site.com/i/business".data = .ok exampleResolved) ∧
    GetLinkAbsoluteUrl exampleBase "/i/business".data = .ok exampleResolved ∧
    GetLinkAbsoluteUrl exampleBase "i/business".data = .ok exampleResolved ∧
    GetLinkAbsoluteUrl exampleBase "://bad".data = .error "missing protocol scheme" :=
  ⟨rfl, fun _ => rfl, rfl, rfl, rfl⟩

/-- C6 witness: the absolute-passthrough clause evaluated at the concrete
base of the resolution table. -/
theorem C6_resolution_witness :
    GetLinkAbsoluteUrl exampleBase "https://my-web-site.com/i/business".data =
      .ok exampleResolved :=
  C6_resolution.2.1 exampleBase

/-- C7 counterexample: the protocol-relative href `//other.com/x` does not
parse as absolute and starts with `'/'`, yet resolving it against
`https://my-web-site.com/test` yields host `other.com`, not the host of
the base, so the claim as stated is false. -/
theorem C7_protocol_relative_counterexample :
    startsWithCh '/' "//other.com/x".data = true ∧
    Except.map IsAbs (urlParse "//other.com/x".data) = .ok false ∧
    GetLinkAbsoluteUrl exampleBase "//other.com/x".data =
      .ok ⟨"https".data, [], "other.com".data, "/x".data⟩ ∧
    ¬ ("other.com".data = exampleBase.host) :=
  ⟨rfl, rfl, rfl, by decide⟩

/-- C7 (amended): for every base URL and every rawHref that starts with
`'/'` but not with `'//'`, every successful resolution through
`GetLinkAbsoluteUrl` returns a URL whose host is the host of the base URL
(the resolution itself can still fail, e.g. on an invalid percent-escape
or a control character in the href, in which case the link is skipped). -/
theorem C7_slash_same_host_amended (base : GoURL) (link : Chars) (r : GoURL)
    (h1 : startsWithCh '/' link = true)
    (h2 : startsWith2 '/' '/' link = false)
    (h3 : GetLinkAbsoluteUrl base link = .ok r) :
    r.host = base.host := by
  cases link with
  | nil => simp [startsWithCh] at h1
  | cons a t =>
    have ha : a = '/' := by simpa [startsWithCh] using h1
    subst ha
    unfold GetLinkAbsoluteUrl at h3
    match hp : urlParse ('/' :: t) with
    | .error e =>
      rw [hp] at h3
      exact Except.noConfusion h3
    | .ok r0 =>
      obtain ⟨hs, ho, hh⟩ := urlParse_rootSlash t r0 h2 hp
      rw [hp] at h3
      have habs : IsAbs r0 = false := by simp [IsAbs, hs]
      simp only [habs, Bool.false_eq_true, if_false, startsWithCh, decide_eq_true_eq,
        if_pos] at h3
      unfold parentParse at h3
      rw [hp] at h3
      injection h3 with h3
      subst h3
      unfold resolveReference
      simp [hs, hh, ho]

/-- C7 witness: the amended statement evaluated at the concrete base of
the resolution table, the root-relative href of that table, and its
successfully resolved result. -/
theorem C7_slash_same_host_witness :
    GetLinkAbsoluteUrl exampleBase "/i/business".data = .ok exampleResolved ∧
    exampleResolved.host = exampleBase.host :=
  ⟨rfl, C7_slash_same_host_amended exampleBase "/i/business".data exampleResolved
    (by decide) (by decide) rfl⟩

/-- C8: `isSameDomain` is true exactly when the two URLs have identical
host strings; a null argument on either side yields false; scheme
differences do not break domain equality (`https://h/a` vs `http://h/b`)
while different hosts do (`https://h1/a` vs `https://h2/a`). -/
theorem C8_same_domain :
    (∀ p u : GoURL, isSameDomain (some p) (some u) = true ↔ p.host = u.host) ∧
    (∀ x, isSameDomain none x = false) ∧
    (∀ x, isSameDomain x none = false) ∧
    isSameDomain (urlParse "https://h/a".data).toOption
      (urlParse "http://h/b".data).toOption = true ∧
    isSameDomain (urlParse "https://h1/a".data).toOption
      (urlParse "https://h2/a".data).toOption = false :=
  ⟨fun p u => by simp [isSameDomain],
   fun x => by cases x <;> rfl,
   fun x => by cases x <;> rfl,
   rfl, rfl⟩

/-- C8 witness: the host-equality characterization evaluated at two
concrete URLs with equal hosts. -/
theorem C8_same_domain_witness :
    isSameDomain (some exampleBase) (some exampleResolved) = true :=
  (C8_same_domain.1 exampleBase exampleResolved).mpr rfl

/-! ### The traversal engines

URLs at the engine level are canonical absolute strings (`String`).  A
`PageGraph` abstracts the external collaborators: `fetch u = none` means
`getPage` fails for `u`; `fetch u = some ls` means it succeeds and the
extraction/resolution pipeline yields the candidate links `ls`; `host u`
is the `Host` component compared by `isSameDomain`. -/

/-- The world a crawl runs against. -/
structure PageGraph where
  fetch : String → Option (List String)
  host : String → String

/-! ### Strategy A: `(*crawler).Crawl` and `recursiveVisit` -/

/-- Program counter of one goroutine spawned by `recursiveVisit`:
`start` is before the `rw.Lock / visited[u] = ... / rw.Unlock` insert,
`fetching` is between the insert and the return of `getPage`,
`visiting` is between a successful fetch and the `visit` callback,
`scanning ls` is the `for link := range links` loop with `ls` the links
not yet examined. -/
inductive APhase where
  | start
  | fetching
  | visiting (links : List String)
  | scanning (links : List String)
deriving DecidableEq, Repr

/-- One live goroutine of strategy A. -/
structure ATask where
  url : String
  ph : APhase
deriving DecidableEq, Repr

/-- Shared state of one strategy-A crawl: the visited map, the live
goroutines tracked by the `WaitGroup`, the context-cancelled flag, and the
histories of `visit` invocations and `getPage` calls (most recent first). -/
structure AState where
  visited : List String
  tasks : List ATask
  cancelled : Bool
  visitLog : List String
  fetchLog : List String
deriving DecidableEq, Repr

/-- Interleaving semantics of strategy A.  `vc` models a visit callback
that cancels the context (as in `Test_crawler_Crawl_Cancelation_Integration`);
`ec` allows an external cancellation (SIGINT) at an arbitrary point.  Each
step is one synchronization-relevant action of one goroutine:
* `insert` — the critical section `rw.Lock(); visited[u.String()] = struct{}{}; rw.Unlock()`;
* `fetchFail` / `fetchOk` — the return of `getPage(ctx, u)`; a fetch
  issued under a cancelled context fails (`http.Client.Do` honours the
  context), and on failure the goroutine returns;
* `visit` — the `visit(u, page)` callback, cancelling when `vc`;
* `scanSkip` — one loop iteration whose link is already visited (read
  under `rw.RLock`) or not same-domain;
* `scanAbort` — one loop iteration whose `select` observes `ctx.Done()`
  and returns, abandoning the remaining links;
* `scanSpawn` — one loop iteration that recursively spawns a new
  goroutine for an unvisited same-domain link (the spawned goroutine has
  not yet inserted its URL: that is its own later `insert` step);
* `finish` — the loop ends and the goroutine returns (`wg.Done`). -/
inductive AStep (g : PageGraph) (vc ec : Bool) : AState → AState → Prop
  | insert (s : AState) (i : Nat) (u : String)
      (h : s.tasks.get? i = some ⟨u, .start⟩) :
      AStep g vc ec s { s with visited := u :: s.visited,
                               tasks := s.tasks.set i ⟨u, .fetching⟩ }
  | fetchFail (s : AState) (i : Nat) (u : String)
      (h : s.tasks.get? i = some ⟨u, .fetching⟩)
      (hf : s.cancelled = true ∨ g.fetch u = none) :
      AStep g vc ec s { s with fetchLog := u :: s.fetchLog,
                               tasks := s.tasks.eraseIdx i }
  | fetchOk (s : AState) (i : Nat) (u : String) (ls : List String)
      (h : s.tasks.get? i = some ⟨u, .fetching⟩)
      (hc : s.cancelled = false) (hf : g.fetch u = some ls) :
      AStep g vc ec s { s with fetchLog := u :: s.fetchLog,
                               tasks := s.tasks.set i ⟨u, .visiting ls⟩ }
  | visit (s : AState) (i : Nat) (u : String) (ls : List String)
      (h : s.tasks.get? i = some ⟨u, .visiting ls⟩) :
      AStep g vc ec s { s with visitLog := u :: s.visitLog,
                               cancelled := s.cancelled || vc,
                               tasks := s.tasks.set i ⟨u, .scanning ls⟩ }
  | scanSkip (s : AState) (i : Nat) (u l : String) (rest : List String)
      (h : s.tasks.get? i = some ⟨u, .scanning (l :: rest)⟩)
      (hs : l ∈ s.visited ∨ g.host l ≠ g.host u) :
      AStep g vc ec s { s with tasks := s.tasks.set i ⟨u, .scanning rest⟩ }
  | scanAbort (s : AState) (i : Nat) (u l : String) (rest : List String)
      (h : s.tasks.get? i = some ⟨u, .scanning (l :: rest)⟩)
      (hm : l ∉ s.visited) (hd : g.host l = g.host u) (hc : s.cancelled = true) :
      AStep g vc ec s { s with tasks := s.tasks.eraseIdx i }
  | scanSpawn (s : AState) (i : Nat) (u l : String) (rest : List String)
      (h : s.tasks.get? i = some ⟨u, .scanning (l :: rest)⟩)
      (hm : l ∉ s.visited) (hd : g.host l = g.host u) (hc : s.cancelled = false) :
      AStep g vc ec s { s with tasks := (s.tasks.set i ⟨u, .scanning rest⟩) ++ [⟨l, .start⟩] }
  | finish (s : AState) (i : Nat) (u : String)
      (h : s.tasks.get? i = some ⟨u, .scanning []⟩) :
      AStep g vc ec s { s with tasks := s.tasks.eraseIdx i }
  | cancelEnv (s : AState) (he : ec = true) (hc : s.cancelled = false) :
      AStep g vc ec s { s with cancelled := true }

/-- Initial state of `(*crawler).Crawl` on a non-nil base: one goroutine
for the root, empty visited map. -/
def initA (root : String) : AState :=
  ⟨[], [⟨root, .start⟩], false, [], []⟩

/-- Reachability for strategy A. -/
def ReachableA (g : PageGraph) (vc ec : Bool) (root : String) (s : AState) : Prop :=
  Relation.ReflTransGen (AStep g vc ec) (initA root) s

/-- Entry of `(*crawler).Crawl`: a nil base URL fails immediately with an
error and no crawl state is ever created; otherwise the machine starts. -/
def crawlA (base : Option String) : Except String AState :=
  match base with
  | none => .error "nil base URL cannot be crawled"
  | some u => .ok (initA u)

/-- Return value of strategy A once `wg.Wait()` unblocks: `Crawl` returns
`nil` (the function body ends in `return nil`).  `some none` is "returned
with a nil error"; `none` means the call has not returned. -/
def CrawlAResult (s : AState) : Option (Option String) :=
  if s.tasks = [] then some none else none

/-- The page graph for the C1 counterexample: the root `r` links to `a`
and `b`, which both link to `c`; everything is on one host. -/
def gC1 : PageGraph where
  fetch u :=
    if u = "r" then some ["a", "b"]
    else if u = "a" then some ["c"]
    else if u = "b" then some ["c"]
    else if u = "c" then some []
    else none
  host _ := "h"

/-! ### An executable scheduler for strategy A, used to exhibit concrete
interleavings.  A schedule is a list of choices; `aChoiceStep` performs
the (uniquely determined) next action of the chosen goroutine.  Its
soundness lemma turns one evaluated schedule into a reachability proof. -/

/-- One scheduling choice for strategy A: `some i` lets goroutine `i` take
its next action, `none` fires the external cancellation. -/
abbrev AChoice := Option Nat

/-- The `fetchFail` / `fetchOk` outcome of the scheduler. -/
def aFetchStep (g : PageGraph) (s : AState) (i : Nat) (u : String) : Option AState :=
  if s.cancelled then
    some { s with fetchLog := u :: s.fetchLog, tasks := s.tasks.eraseIdx i }
  else
    match g.fetch u with
    | none => some { s with fetchLog := u :: s.fetchLog, tasks := s.tasks.eraseIdx i }
    | some ls =>
      some { s with fetchLog := u :: s.fetchLog, tasks := s.tasks.set i ⟨u, .visiting ls⟩ }

/-- The `scanSkip` / `scanAbort` / `scanSpawn` / `finish` outcome of the
scheduler. -/
def aScanStep (g : PageGraph) (s : AState) (i : Nat) (u : String) :
    List String → Option AState
  | [] => some { s with tasks := s.tasks.eraseIdx i }
  | l :: rest =>
    if l ∈ s.visited ∨ g.host l ≠ g.host u then
      some { s with tasks := s.tasks.set i ⟨u, .scanning rest⟩ }
    else if s.cancelled then some { s with tasks := s.tasks.eraseIdx i }
    else some { s with tasks := (s.tasks.set i ⟨u, .scanning rest⟩) ++ [⟨l, .start⟩] }

/-- Perform the next action of goroutine `i`; `none` when there is no such
goroutine.  Each successful outcome is exactly the target of the
corresponding `AStep` constructor. -/
def aTaskStep (g : PageGraph) (vc : Bool) (s : AState) (i : Nat) : Option AState :=
  match s.tasks.get? i with
  | none => none
  | some ⟨u, .start⟩ =>
    some { s with visited := u :: s.visited, tasks := s.tasks.set i ⟨u, .fetching⟩ }
  | some ⟨u, .fetching⟩ => aFetchStep g s i u
  | some ⟨u, .visiting ls⟩ =>
    some { s with visitLog := u :: s.visitLog, cancelled := s.cancelled || vc,
                  tasks := s.tasks.set i ⟨u, .scanning ls⟩ }
  | some ⟨u, .scanning ls⟩ => aScanStep g s i u ls

/-- Perform the next action of the chosen goroutine (or the external
cancellation); `none` when that choice is disabled. -/
def aChoiceStep (g : PageGraph) (vc ec : Bool) (s : AState) : AChoice → Option AState
  | none => if ec && !s.cancelled then some { s with cancelled := true } else none
  | some i => aTaskStep g vc s i

/-- Run a schedule from a state; `none` if any choice is disabled. -/
def runA (g : PageGraph) (vc ec : Bool) : AState → List AChoice → Option AState
  | s, [] => some s
  | s, c :: cs =>
    match aChoiceStep g vc ec s c with
    | none => none
    | some s2 => runA g vc ec s2 cs

/-- Every action the scheduler performs is a step of the relation. -/
lemma aChoiceStep_sound (g : PageGraph) (vc ec : Bool) (s s2 : AState) (c : AChoice)
    (h : aChoiceStep g vc ec s c = some s2) : AStep g vc ec s s2 := by
  cases c with
  | none =>
    simp only [aChoiceStep] at h
    split at h
    · rename_i hcond
      simp only [Bool.and_eq_true, Bool.not_eq_true'] at hcond
      injection h with h
      subst h
      exact AStep.cancelEnv s hcond.1 hcond.2
    · exact Option.noConfusion h
  | some i =>
    simp only [aChoiceStep] at h
    unfold aTaskStep at h
    split at h
    · exact Option.noConfusion h
    · rename_i u hg
      injection h with h
      subst h
      exact AStep.insert s i u hg
    · rename_i u hg
      unfold aFetchStep at h
      split at h
      · rename_i hc
        injection h with h
        subst h
        exact AStep.fetchFail s i u hg (Or.inl hc)
      · rename_i hc
        have hc2 : s.cancelled = false := Bool.eq_false_iff.mpr hc
        split at h
        · rename_i hf
          injection h with h
          subst h
          exact AStep.fetchFail s i u hg (Or.inr hf)
        · rename_i ls hf
          injection h with h
          subst h
          exact AStep.fetchOk s i u ls hg hc2 hf
    · rename_i u ls hg
      injection h with h
      subst h
      exact AStep.visit s i u ls hg
    · rename_i u ls hg
      cases ls with
      | nil =>
        simp only [aScanStep] at h
        injection h with h
        subst h
        exact AStep.finish s i u hg
      | cons l rest =>
        simp only [aScanStep] at h
        split at h
        · rename_i hs
          injection h with h
          subst h
          exact AStep.scanSkip s i u l rest hg hs
        · rename_i hn
          have hm : l ∉ s.visited := fun hmem => hn (Or.inl hmem)
          have hd : g.host l = g.host u := by
            by_contra hne
            exact hn (Or.inr hne)
          split at h
          · rename_i hc
            injection h with h
            subst h
            exact AStep.scanAbort s i u l rest hg hm hd hc
          · rename_i hc
            have hc2 : s.cancelled = false := Bool.eq_false_iff.mpr hc
            injection h with h
            subst h
            exact AStep.scanSpawn s i u l rest hg hm hd hc2

/-- A successfully evaluated schedule yields reachability. -/
lemma runA_sound (g : PageGraph) (vc ec : Bool) (cs : List AChoice) (s s2 : AState)
    (h : runA g vc ec s cs = some s2) :
    Relation.ReflTransGen (AStep g vc ec) s s2 := by
  induction cs generalizing s with
  | nil =>
    simp only [runA, Option.some.injEq] at h
    exact h ▸ Relation.ReflTransGen.refl
  | cons c cs ih =>
    match hc : aChoiceStep g vc ec s c with
    | none => simp [runA, hc] at h
    | some s1 =>
      simp only [runA, hc] at h
      exact Relation.ReflTransGen.head (aChoiceStep_sound g vc ec s s1 c hc) (ih s1 h)

/-- Evaluate a schedule from the initial state and test the end state. -/
def checkRunA (g : PageGraph) (vc ec : Bool) (root : String) (cs : List AChoice)
    (p : AState → Bool) : Bool :=
  (runA g vc ec (initA root) cs).elim false p

/-- A schedule whose end state passes a boolean test witnesses a reachable
state passing that test. -/
lemma checkRunA_sound (g : PageGraph) (vc ec : Bool) (root : String) (cs : List AChoice)
    (p : AState → Bool) (h : checkRunA g vc ec root cs p = true) :
    ∃ s, ReachableA g vc ec root s ∧ p s = true := by
  match hr : runA g vc ec (initA root) cs with
  | none => simp [checkRunA, hr] at h
  | some s2 =>
    refine ⟨s2, runA_sound g vc ec cs (initA root) s2 hr, ?_⟩
    simpa [checkRunA, hr] using h

/-- The schedule of the C1 counterexample: the root discovers `a` and `b`;
both fetch, both pass the visited check for `c` before either spawned
goroutine for `c` has inserted it, so `c` is fetched and visited twice. -/
def c1Schedule : List AChoice :=
  [some 0, some 0, some 0, some 0, some 0, some 0,
   some 0, some 0, some 0,
   some 1, some 1, some 1,
   some 0, some 1,
   some 2, some 2, some 2,
   some 3, some 3, some 3]

/-- C1: refuted.  In strategy A the visited-set membership check runs in
the parent goroutine but the insert runs in the spawned child, so two
pages that both link to `c` can both pass the check before either child
inserts `c`: the interleaving of `c1Schedule` fetches `c` twice and
passes `c` to the visit callback twice, contradicting both the
at-most-once-visit claim and the no-two-tasks-fetch-the-same-URL claim. -/
theorem C1_strategyA_visits_url_twice :
    ∃ s, ReachableA gC1 false false "r" s ∧
      2 ≤ s.visitLog.count "c" ∧ 2 ≤ s.fetchLog.count "c" := by
  obtain ⟨s, hs, hp⟩ := checkRunA_sound gC1 false false "r" c1Schedule
    (fun s => decide (2 ≤ s.visitLog.count "c" ∧ 2 ≤ s.fetchLog.count "c"))
    (by decide)
  exact ⟨s, hs, of_decide_eq_true hp⟩

/-! ### Strategy B: `(*cyclicCrawler).Crawl`, `dispatchScrapperGoRoutines`
and `scrapePage` -/

/-- Program counter of one worker goroutine of strategy B:
`fetching` is inside `getPage`; `visiting` is between a successful fetch
and the `visit` callback; `pushing b` is at `chLinkCandidates <- absLinks`
with the filtered batch `b`; `exiting` is at the deferred
`releaseToken` / counter-decrement pair. -/
inductive WPhase where
  | fetching
  | visiting (links : List String)
  | pushing (batch : List String)
  | exiting
deriving DecidableEq, Repr

/-- One live worker goroutine of strategy B. -/
structure BWorker where
  url : String
  ph : WPhase
deriving DecidableEq, Repr

/-- Program counter of the coordinating loop of `(*cyclicCrawler).Crawl`:
`select` is the top of `ListenerLoop`; `dispatch l` is inside
`dispatchScrapperGoRoutines` with `l` the candidate URLs not yet examined;
`acquire u l` is at `tokens <- struct{}{}` for the just-marked URL `u`;
`defaultCheck` is the `default` branch before `atomic.LoadUint32`;
`blockedRead` is the blocking `<-chLinkCandidates` of the `default`
branch; `atClose` is after `break ListenerLoop` before
`close(chLinkCandidates)`; `atReturn` is between the close and
`return nil`; `done` is after `return nil`. -/
inductive CoordPC where
  | select
  | dispatch (pending : List String)
  | acquire (u : String) (pending : List String)
  | defaultCheck
  | blockedRead
  | atClose
  | atReturn
  | done
deriving DecidableEq, Repr

/-- State of one strategy-B crawl: the (coordinator-only) visited map, the
buffered candidate channel with its closed flag, the atomic
`numGoroutines` counter, the number of held semaphore tokens, the worker
goroutines, the coordinator program counter, the context flag, a crashed
flag (an unrecovered panic kills the whole program), and the `visit` /
`getPage` histories. -/
structure BState where
  visited : List String
  ch : List (List String)
  chClosed : Bool
  counter : Nat
  tokens : Nat
  workers : List BWorker
  cpc : CoordPC
  cancelled : Bool
  crashed : Bool
  visitLog : List String
  fetchLog : List String
deriving DecidableEq, Repr

/-- Interleaving semantics of strategy B with concurrency bound `mc`
(`maxConcurrent` after the `uint32(1)` clamp) and channel capacity
`2*mc`.  Go `select` semantics: a ready communication case is chosen
nondeterministically (`consume` and `selectCancel` can both be enabled),
and the `default` branch runs only when no case is ready
(`selectDefault`).  The `default` branch reads `numGoroutines`
(`checkZero` / `checkBusy`) in a separate step, so workers can push or
exit between the emptiness observation and the counter read, and the
blocking read (`blockedConsume`) does not watch the context.  A worker
sending on the closed channel is an unrecovered panic (`wPushPanic`):
its deferred calls run and the program crashes, after which nothing
steps.  A fetch attempted after cancellation fails. -/
inductive BStep (g : PageGraph) (vc ec : Bool) (mc : Nat) : BState → BState → Prop
  | consume (s : BState) (b : List String) (rest : List (List String))
      (hcr : s.crashed = false) (hpc : s.cpc = .select) (hch : s.ch = b :: rest) :
      BStep g vc ec mc s { s with cpc := .dispatch b, ch := rest }
  | selectCancel (s : BState)
      (hcr : s.crashed = false) (hpc : s.cpc = .select) (hc : s.cancelled = true) :
      BStep g vc ec mc s { s with cpc := .atClose }
  | selectDefault (s : BState)
      (hcr : s.crashed = false) (hpc : s.cpc = .select) (hch : s.ch = [])
      (hc : s.cancelled = false) :
      BStep g vc ec mc s { s with cpc := .defaultCheck }
  | checkZero (s : BState)
      (hcr : s.crashed = false) (hpc : s.cpc = .defaultCheck) (hn : s.counter = 0) :
      BStep g vc ec mc s { s with cpc := .atClose }
  | checkBusy (s : BState)
      (hcr : s.crashed = false) (hpc : s.cpc = .defaultCheck) (hn : s.counter ≠ 0) :
      BStep g vc ec mc s { s with cpc := .blockedRead }
  | blockedConsume (s : BState) (b : List String) (rest : List (List String))
      (hcr : s.crashed = false) (hpc : s.cpc = .blockedRead) (hch : s.ch = b :: rest) :
      BStep g vc ec mc s { s with cpc := .dispatch b, ch := rest }
  | dispatchSkip (s : BState) (u : String) (rest : List String)
      (hcr : s.crashed = false) (hpc : s.cpc = .dispatch (u :: rest)) (hv : u ∈ s.visited) :
      BStep g vc ec mc s { s with cpc := .dispatch rest }
  | dispatchMark (s : BState) (u : String) (rest : List String)
      (hcr : s.crashed = false) (hpc : s.cpc = .dispatch (u :: rest)) (hv : u ∉ s.visited) :
      BStep g vc ec mc s { s with visited := u :: s.visited, counter := s.counter + 1,
                                  cpc := .acquire u rest }
  | acquireTok (s : BState) (u : String) (rest : List String)
      (hcr : s.crashed = false) (hpc : s.cpc = .acquire u rest) (ht : s.tokens < mc) :
      BStep g vc ec mc s { s with tokens := s.tokens + 1,
                                  workers := s.workers ++ [⟨u, .fetching⟩],
                                  cpc := .dispatch rest }
  | dispatchDone (s : BState)
      (hcr : s.crashed = false) (hpc : s.cpc = .dispatch []) :
      BStep g vc ec mc s { s with cpc := .select }
  | closeCh (s : BState)
      (hcr : s.crashed = false) (hpc : s.cpc = .atClose) :
      BStep g vc ec mc s { s with chClosed := true, cpc := .atReturn }
  | retNil (s : BState)
      (hcr : s.crashed = false) (hpc : s.cpc = .atReturn) :
      BStep g vc ec mc s { s with cpc := .done }
  | wFetchFail (s : BState) (i : Nat) (u : String)
      (hcr : s.crashed = false) (hw : s.workers.get? i = some ⟨u, .fetching⟩)
      (hf : s.cancelled = true ∨ g.fetch u = none) :
      BStep g vc ec mc s { s with fetchLog := u :: s.fetchLog,
                                  workers := s.workers.set i ⟨u, .exiting⟩ }
  | wFetchOk (s : BState) (i : Nat) (u : String) (ls : List String)
      (hcr : s.crashed = false) (hw : s.workers.get? i = some ⟨u, .fetching⟩)
      (hc : s.cancelled = false) (hf : g.fetch u = some ls) :
      BStep g vc ec mc s { s with fetchLog := u :: s.fetchLog,
                                  workers := s.workers.set i ⟨u, .visiting ls⟩ }
  | wVisit (s : BState) (i : Nat) (u : String) (ls : List String)
      (hcr : s.crashed = false) (hw : s.workers.get? i = some ⟨u, .visiting ls⟩) :
      BStep g vc ec mc s { s with visitLog := u :: s.visitLog,
                                  cancelled := s.cancelled || vc,
                                  workers := s.workers.set i
                                    ⟨u, .pushing (ls.filter (fun l => g.host l == g.host u))⟩ }
  | wPush (s : BState) (i : Nat) (u : String) (b : List String)
      (hcr : s.crashed = false) (hw : s.workers.get? i = some ⟨u, .pushing b⟩)
      (hcl : s.chClosed = false) (hlen : s.ch.length < 2 * mc) :
      BStep g vc ec mc s { s with ch := s.ch ++ [b],
                                  workers := s.workers.set i ⟨u, .exiting⟩ }
  | wPushPanic (s : BState) (i : Nat) (u : String) (b : List String)
      (hcr : s.crashed = false) (hw : s.workers.get? i = some ⟨u, .pushing b⟩)
      (hcl : s.chClosed = true) :
      BStep g vc ec mc s { s with crashed := true, workers := s.workers.eraseIdx i,
                                  tokens := s.tokens - 1, counter := s.counter - 1 }
  | wExit (s : BState) (i : Nat) (u : String)
      (hcr : s.crashed = false) (hw : s.workers.get? i = some ⟨u, .exiting⟩) :
      BStep g vc ec mc s { s with tokens := s.tokens - 1, counter := s.counter - 1,
                                  workers := s.workers.eraseIdx i }
  | cancelEnvB (s : BState)
      (hcr : s.crashed = false) (he : ec = true) (hc : s.cancelled = false) :
      BStep g vc ec mc s { s with cancelled := true }

/-- Initial state of `(*cyclicCrawler).Crawl` on a non-nil base: the
candidate channel is seeded with the singleton batch `[base]` and the
coordinator is at the top of `ListenerLoop`. -/
def initB (root : String) : BState :=
  ⟨[], [[root]], false, 0, 0, [], .select, false, false, [], []⟩

/-- Reachability for strategy B. -/
def ReachableB (g : PageGraph) (vc ec : Bool) (mc : Nat) (root : String) (s : BState) : Prop :=
  Relation.ReflTransGen (BStep g vc ec mc) (initB root) s

/-- Entry of `(*cyclicCrawler).Crawl`: a nil base URL fails immediately
with an error and no crawl state is ever created. -/
def crawlB (base : Option String) : Except String BState :=
  match base with
  | none => .error "nil base URL cannot be crawled"
  | some u => .ok (initB u)

/-- Return value of strategy B: the coordinator that reaches `done` has
executed `return nil`; in any other state the call has not returned. -/
def CrawlBResult (s : BState) : Option (Option String) :=
  if s.cpc = .done then some none else none

/-! ### An executable scheduler for strategy B -/

/-- One scheduling choice for strategy B: `co` runs the coordinator (when
the channel case and the context case of the `select` are both ready this
choice takes the channel case), `w i` runs worker `i`, `env` fires the
external cancellation. -/
inductive BChoice where
  | co
  | w (i : Nat)
  | env
deriving Repr

/-- The coordinator action determined by its program counter. -/
def bCoordStep (mc : Nat) (s : BState) : Option BState :=
  match s.cpc with
  | .select =>
    match s.ch with
    | b :: rest => some { s with cpc := .dispatch b, ch := rest }
    | [] =>
      if s.cancelled then some { s with cpc := .atClose }
      else some { s with cpc := .defaultCheck }
  | .defaultCheck =>
    if s.counter = 0 then some { s with cpc := .atClose }
    else some { s with cpc := .blockedRead }
  | .blockedRead =>
    match s.ch with
    | b :: rest => some { s with cpc := .dispatch b, ch := rest }
    | [] => none
  | .dispatch [] => some { s with cpc := .select }
  | .dispatch (u :: rest) =>
    if u ∈ s.visited then some { s with cpc := .dispatch rest }
    else some { s with visited := u :: s.visited, counter := s.counter + 1,
                       cpc := .acquire u rest }
  | .acquire u rest =>
    if s.tokens < mc then
      some { s with tokens := s.tokens + 1, workers := s.workers ++ [⟨u, .fetching⟩],
                    cpc := .dispatch rest }
    else none
  | .atClose => some { s with chClosed := true, cpc := .atReturn }
  | .atReturn => some { s with cpc := .done }
  | .done => none

/-- The fetch outcome of worker `i`. -/
def bWFetchStep (g : PageGraph) (s : BState) (i : Nat) (u : String) : Option BState :=
  if s.cancelled then
    some { s with fetchLog := u :: s.fetchLog, workers := s.workers.set i ⟨u, .exiting⟩ }
  else
    match g.fetch u with
    | none => some { s with fetchLog := u :: s.fetchLog,
                            workers := s.workers.set i ⟨u, .exiting⟩ }
    | some ls => some { s with fetchLog := u :: s.fetchLog,
                               workers := s.workers.set i ⟨u, .visiting ls⟩ }

/-- The channel-send outcome of worker `i`. -/
def bWPushStep (mc : Nat) (s : BState) (i : Nat) (u : String) (b : List String) :
    Option BState :=
  if s.chClosed then
    some { s with crashed := true, workers := s.workers.eraseIdx i,
                  tokens := s.tokens - 1, counter := s.counter - 1 }
  else if s.ch.length < 2 * mc then
    some { s with ch := s.ch ++ [b], workers := s.workers.set i ⟨u, .exiting⟩ }
  else none

/-- The action of worker `i` determined by its phase. -/
def bWorkerStep (g : PageGraph) (vc : Bool) (mc : Nat) (s : BState) (i : Nat) :
    Option BState :=
  match s.workers.get? i with
  | none => none
  | some ⟨u, .fetching⟩ => bWFetchStep g s i u
  | some ⟨u, .visiting ls⟩ =>
    some { s with visitLog := u :: s.visitLog, cancelled := s.cancelled || vc,
                  workers := s.workers.set i
                    ⟨u, .pushing (ls.filter (fun l => g.host l == g.host u))⟩ }
  | some ⟨u, .pushing b⟩ => bWPushStep mc s i u b
  | some ⟨_, .exiting⟩ =>
    some { s with tokens := s.tokens - 1, counter := s.counter - 1,
                  workers := s.workers.eraseIdx i }

/-- Perform the chosen action; `none` when it is disabled. -/
def bChoiceStep (g : PageGraph) (vc ec : Bool) (mc : Nat) (s : BState) :
    BChoice → Option BState
  | .co => if s.crashed then none else bCoordStep mc s
  | .w i => if s.crashed then none else bWorkerStep g vc mc s i
  | .env =>
    if !s.crashed && ec && !s.cancelled then some { s with cancelled := true } else none

/-- Every action the scheduler performs is a step of the relation. -/
lemma bChoiceStep_sound (g : PageGraph) (vc ec : Bool) (mc : Nat) (s s2 : BState)
    (c : BChoice) (h : bChoiceStep g vc ec mc s c = some s2) : BStep g vc ec mc s s2 := by
  cases c with
  | env =>
    simp only [bChoiceStep] at h
    split at h
    · rename_i hcond
      simp only [Bool.and_eq_true, Bool.not_eq_true'] at hcond
      injection h with h
      subst h
      exact BStep.cancelEnvB s hcond.1.1 hcond.1.2 hcond.2
    · exact Option.noConfusion h
  | co =>
    simp only [bChoiceStep] at h
    split at h
    · exact Option.noConfusion h
    · rename_i hcr
      have hcr2 : s.crashed = false := Bool.eq_false_iff.mpr hcr
      unfold bCoordStep at h
      split at h
      · rename_i hpc
        split at h
        · rename_i b rest hch
          injection h with h
          subst h
          exact BStep.consume s b rest hcr2 hpc hch
        · rename_i hch
          split at h
          · rename_i hc
            injection h with h
            subst h
            exact BStep.selectCancel s hcr2 hpc hc
          · rename_i hc
            injection h with h
            subst h
            exact BStep.selectDefault s hcr2 hpc (by assumption) (Bool.eq_false_iff.mpr hc)
      · rename_i hpc
        split at h
        · rename_i hn
          injection h with h
          subst h
          exact BStep.checkZero s hcr2 hpc hn
        · rename_i hn
          injection h with h
          subst h
          exact BStep.checkBusy s hcr2 hpc hn
      · rename_i hpc
        split at h
        · rename_i b rest hch
          injection h with h
          subst h
          exact BStep.blockedConsume s b rest hcr2 hpc hch
        · exact Option.noConfusion h
      · rename_i hpc
        injection h with h
        subst h
        exact BStep.dispatchDone s hcr2 hpc
      · rename_i u rest hpc
        split at h
        · rename_i hv
          injection h with h
          subst h
          exact BStep.dispatchSkip s u rest hcr2 hpc hv
        · rename_i hv
          injection h with h
          subst h
          exact BStep.dispatchMark s u rest hcr2 hpc hv
      · rename_i u rest hpc
        split at h
        · rename_i ht
          injection h with h
          subst h
          exact BStep.acquireTok s u rest hcr2 hpc ht
        · exact Option.noConfusion h
      · rename_i hpc
        injection h with h
        subst h
        exact BStep.closeCh s hcr2 hpc
      · rename_i hpc
        injection h with h
        subst h
        exact BStep.retNil s hcr2 hpc
      · exact Option.noConfusion h
  | w i =>
    simp only [bChoiceStep] at h
    split at h
    · exact Option.noConfusion h
    · rename_i hcr
      have hcr2 : s.crashed = false := Bool.eq_false_iff.mpr hcr
      unfold bWorkerStep at h
      split at h
      · exact Option.noConfusion h
      · rename_i u hw
        unfold bWFetchStep at h
        split at h
        · rename_i hc
          injection h with h
          subst h
          exact BStep.wFetchFail s i u hcr2 hw (Or.inl hc)
        · rename_i hc
          have hc2 : s.cancelled = false := Bool.eq_false_iff.mpr hc
          split at h
          · rename_i hf
            injection h with h
            subst h
            exact BStep.wFetchFail s i u hcr2 hw (Or.inr hf)
          · rename_i ls hf
            injection h with h
            subst h
            exact BStep.wFetchOk s i u ls hcr2 hw hc2 hf
      · rename_i u ls hw
        injection h with h
        subst h
        exact BStep.wVisit s i u ls hcr2 hw
      · rename_i u b hw
        unfold bWPushStep at h
        split at h
        · rename_i hcl
          injection h with h
          subst h
          exact BStep.wPushPanic s i u b hcr2 hw hcl
        · rename_i hcl
          have hcl2 : s.chClosed = false := Bool.eq_false_iff.mpr hcl
          split at h
          · rename_i hlen
            injection h with h
            subst h
            exact BStep.wPush s i u b hcr2 hw hcl2 hlen
          · exact Option.noConfusion h
      · rename_i u hw
        injection h with h
        subst h
        exact BStep.wExit s i u hcr2 hw

/-- Run a schedule from a state; `none` if any choice is disabled. -/
def runB (g : PageGraph) (vc ec : Bool) (mc : Nat) : BState → List BChoice → Option BState
  | s, [] => some s
  | s, c :: cs =>
    match bChoiceStep g vc ec mc s c with
    | none => none
    | some s2 => runB g vc ec mc s2 cs

/-- A successfully evaluated schedule yields reachability. -/
lemma runB_sound (g : PageGraph) (vc ec : Bool) (mc : Nat) (cs : List BChoice)
    (s s2 : BState) (h : runB g vc ec mc s cs = some s2) :
    Relation.ReflTransGen (BStep g vc ec mc) s s2 := by
  induction cs generalizing s with
  | nil =>
    simp only [runB, Option.some.injEq] at h
    exact h ▸ Relation.ReflTransGen.refl
  | cons c cs ih =>
    match hc : bChoiceStep g vc ec mc s c with
    | none => simp [runB, hc] at h
    | some s1 =>
      simp only [runB, hc] at h
      exact Relation.ReflTransGen.head (bChoiceStep_sound g vc ec mc s s1 c hc) (ih s1 h)

/-- Evaluate a schedule from the initial state and test the end state. -/
def checkRunB (g : PageGraph) (vc ec : Bool) (mc : Nat) (root : String)
    (cs : List BChoice) (p : BState → Bool) : Bool :=
  (runB g vc ec mc (initB root) cs).elim false p

/-- A schedule whose end state passes a boolean test witnesses a reachable
state passing that test. -/
lemma checkRunB_sound (g : PageGraph) (vc ec : Bool) (mc : Nat) (root : String)
    (cs : List BChoice) (p : BState → Bool) (h : checkRunB g vc ec mc root cs p = true) :
    ∃ s, ReachableB g vc ec mc root s ∧ p s = true := by
  match hr : runB g vc ec mc (initB root) cs with
  | none => simp [checkRunB, hr] at h
  | some s2 =>
    refine ⟨s2, runB_sound g vc ec mc cs (initB root) s2 hr, ?_⟩
    simpa [checkRunB, hr] using h

/-- Without external cancellation, a state whose coordinator is blocked on
an empty candidate channel with no live workers, or whose coordinator has
returned with no live workers, has no successor: the former is a deadlock
of `Crawl`, the latter is the end of the run. -/
lemma bStuck_final (g : PageGraph) (vc : Bool) (mc : Nat) (s : BState)
    (hw : s.workers = [])
    (hpc : (s.cpc = .blockedRead ∧ s.ch = []) ∨ s.cpc = .done) :
    ∀ s2, ¬ BStep g vc false mc s s2 := by
  intro s2 hst
  cases hst <;> rcases hpc with ⟨hpc, hch⟩ | hpc <;> simp_all

/-- Nothing steps after a crash: an unrecovered panic kills the program. -/
lemma bStuck_crashed (g : PageGraph) (vc ec : Bool) (mc : Nat) (s : BState)
    (hcr : s.crashed = true) : ∀ s2, ¬ BStep g vc ec mc s s2 := by
  intro s2 hst
  cases hst <;> simp_all

/-- A one-page site: the root `r` fetches successfully and has no links. -/
def gEmpty : PageGraph where
  fetch u := if u = "r" then some [] else none
  host _ := "h"

/-- A two-page site: the root `r` links to `a`, which has no links. -/
def gLinkOne : PageGraph where
  fetch u := if u = "r" then some ["a"] else if u = "a" then some [] else none
  host _ := "h"

/-- A site whose root fetch always fails. -/
def gFailRoot : PageGraph where
  fetch _ := none
  host _ := "h"

/-- The page graph for the C5 counterexample: the root `r` links to `f`
(whose fetch always fails) and to `p`; `p` links to `q`; `q` fetches
successfully; everything is on one host, so `q` is reachable from the
root without going through the failing page `f`. -/
def gC5 : PageGraph where
  fetch u :=
    if u = "r" then some ["f", "p"]
    else if u = "p" then some ["q"]
    else if u = "q" then some []
    else none
  host _ := "h"

/-- The schedule of the C2 counterexample: the coordinator consumes the
batch the root worker pushed, then takes the `default` branch, reads
`numGoroutines = 1` because the worker has not yet run its deferred
decrement, and blocks reading the channel; the worker then exits and no
batch ever arrives. -/
def c2Schedule : List BChoice :=
  [.co, .co, .co, .co, .w 0, .w 0, .w 0, .co, .co, .co, .co, .w 0]

/-- C2: refuted.  On a one-page site whose only fetch succeeds, strategy B
has an interleaving that reaches a state where the coordinator is blocked
forever on the candidate channel with no live workers: `Crawl` hangs, so
termination does not hold for every finite page graph, and the blocking
read can block forever after all workers have finished producing. -/
theorem C2_strategyB_deadlock :
    ∃ s, ReachableB gEmpty false false 1 "r" s ∧ CrawlBResult s = none ∧
      s.cpc = .blockedRead ∧ ∀ s2, ¬ BStep gEmpty false false 1 s s2 := by
  obtain ⟨s, hs, hp⟩ := checkRunB_sound gEmpty false false 1 "r" c2Schedule
    (fun s => decide (s.cpc = .blockedRead ∧ s.ch = [] ∧ s.workers = [] ∧ s.crashed = false))
    (by decide)
  obtain ⟨h1, h2, h3, _⟩ := of_decide_eq_true hp
  exact ⟨s, hs, by simp [CrawlBResult, h1], h1,
    bStuck_final gEmpty false 1 s h3 (Or.inl ⟨h1, h2⟩)⟩

/-- The schedule of the C4 counterexample: the root worker fetches and
visits, the external cancellation fires, the coordinator observes it,
breaks the loop and closes the channel, and then the still-running root
worker sends its batch on the closed channel. -/
def c4Schedule : List BChoice :=
  [.co, .co, .co, .co, .w 0, .w 0, .env, .co, .co, .w 0]

/-- C4: refuted.  When cancellation ends the coordinating loop while the
root worker is still running, the worker's subsequent batch send can hit
the channel `Crawl` has already closed: sending on a closed channel is an
unrecovered panic, so the dispatched worker does not complete its work
without run-time failure. -/
theorem C4_send_on_closed_channel :
    ∃ s, ReachableB gLinkOne false true 1 "r" s ∧
      s.chClosed = true ∧ s.crashed = true := by
  obtain ⟨s, hs, hp⟩ := checkRunB_sound gLinkOne false true 1 "r" c4Schedule
    (fun s => decide (s.chClosed = true ∧ s.crashed = true))
    (by decide)
  obtain ⟨h1, h2⟩ := of_decide_eq_true hp
  exact ⟨s, hs, h1, h2⟩

/-- The schedule of the C3 counterexample: the visit callback on the very
first successful fetch cancels the context; the coordinator observes the
cancellation and closes the channel before the root worker pushes its
batch; the push panics, killing the program between `close` and
`return nil`. -/
def c3Schedule : List BChoice :=
  [.co, .co, .co, .co, .w 0, .w 0, .co, .co, .w 0]

/-- C3 counterexample: in strategy B, when the visit callback cancels on
the very first successful fetch, there is an interleaving in which
exactly one page has been visited but the program crashes (the root
worker sends on the channel the coordinator closed after observing the
cancellation) while the coordinator is between `close` and `return nil`,
so `Crawl` never returns its nil error: the claim as stated is false. -/
theorem C3_crash_counterexample :
    ∃ s, ReachableB gLinkOne true false 1 "r" s ∧
      s.visitLog = ["r"] ∧ s.crashed = true ∧ CrawlBResult s = none ∧
      ∀ s2, ¬ BStep gLinkOne true false 1 s s2 := by
  obtain ⟨s, hs, hp⟩ := checkRunB_sound gLinkOne true false 1 "r" c3Schedule
    (fun s => decide (s.visitLog = ["r"] ∧ s.crashed = true ∧ s.cpc = .atReturn))
    (by decide)
  obtain ⟨h1, h2, h3⟩ := of_decide_eq_true hp
  exact ⟨s, hs, h1, h2, by simp [CrawlBResult, h3],
    bStuck_crashed gLinkOne true false 1 s h2⟩

/-- The schedule of the C5 counterexample: the root worker discovers
`f` and `p`; `f` fails; the coordinator takes the `default` branch while
the channel is still empty; worker `p` then pushes the batch containing
`q` and exits; the coordinator now reads the counter as zero and breaks,
closing the channel with the `q` batch still unconsumed. -/
def c5Schedule : List BChoice :=
  [.co, .co, .co, .co, .w 0, .w 0, .w 0, .w 0,
   .co, .co, .co, .w 0, .w 0, .co, .co, .co, .co,
   .w 0, .w 0, .w 0, .w 0, .co, .co, .co]

/-- C5: refuted.  On a site where only the non-root page `f` fails,
strategy B has an interleaving that terminates normally (`Crawl` returns
nil, no workers remain) with the batch containing the reachable page `q`
still sitting unconsumed in the channel: `q` is never visited even though
it is reachable from the root without passing through `f`, so the
fetch-failure claim that every other reachable page is still visited is
false. -/
theorem C5_strategyB_loses_reachable_page :
    gC5.fetch "f" = none ∧ gC5.fetch "p" = some ["q"] ∧ gC5.fetch "q" = some [] ∧
    ∃ s, ReachableB gC5 false false 1 "r" s ∧ CrawlBResult s = some none ∧
      s.visitLog.count "q" = 0 ∧ s.fetchLog.count "q" = 0 ∧
      ∀ s2, ¬ BStep gC5 false false 1 s s2 := by
  refine ⟨rfl, rfl, rfl, ?_⟩
  obtain ⟨s, hs, hp⟩ := checkRunB_sound gC5 false false 1 "r" c5Schedule
    (fun s => decide (s.cpc = .done ∧ s.workers = [] ∧ s.visitLog.count "q" = 0 ∧
      s.fetchLog.count "q" = 0))
    (by decide)
  obtain ⟨h1, h2, h3, h4⟩ := of_decide_eq_true hp
  exact ⟨s, hs, by simp [CrawlBResult, h1], h3, h4,
    bStuck_final gC5 false 1 s h2 (Or.inr h1)⟩

/-- The schedule of the C9 counterexample: the coordinator dispatches the
root worker and blocks reading the channel; the root fetch fails, so the
worker exits without ever pushing a batch, and the coordinator stays
blocked forever. -/
def c9Schedule : List BChoice :=
  [.co, .co, .co, .co, .co, .co, .w 0, .w 0]

/-! ### Invariants for the cancelling-visit scenario

In the scenario of the cancellation test the visit callback cancels the
context on every invocation (`vc = true`), there is no external
cancellation (`ec = false`), and the root fetch succeeds.  Before the
first visit the whole system is in lockstep: only the root task exists
and has not produced anything; after the first visit the context is
cancelled, the log holds exactly the root, and no task can reach the
`visiting` phase again. -/

/-- Auxiliary: a singleton list indexes only at zero. -/
lemma get?_singleton {α : Type} (a b : α) (i : Nat)
    (h : ([a] : List α).get? i = some b) : i = 0 ∧ b = a := by
  cases i with
  | zero =>
    simp at h
    exact ⟨rfl, h.symm⟩
  | succ n => simp at h

/-- Auxiliary: removing an element never lengthens a list. -/
lemma length_eraseIdx_le {α : Type} (l : List α) (i : Nat) :
    (l.eraseIdx i).length ≤ l.length := by
  induction l generalizing i with
  | nil => simp [List.eraseIdx]
  | cons a l ih =>
    cases i with
    | zero => simp [List.eraseIdx]
    | succ n => simpa [List.eraseIdx] using Nat.succ_le_succ (ih n)

/-- Invariant of strategy A in the cancelling-visit scenario: before the
first visit the root task is the only task and is at most at the
`visiting` phase; afterwards the context is cancelled, exactly the root
has been visited, and no task is at the `visiting` phase. -/
def scenInvA (g : PageGraph) (root : String) (s : AState) : Prop :=
  (s.cancelled = false ∧ s.visitLog = [] ∧
    (s.tasks = [⟨root, .start⟩] ∧ s.visited = [] ∨
     s.tasks = [⟨root, .fetching⟩] ∧ s.visited = [root] ∨
     ∃ ls, g.fetch root = some ls ∧ s.tasks = [⟨root, .visiting ls⟩] ∧ s.visited = [root])) ∨
  (s.cancelled = true ∧ s.visitLog = [root] ∧
    ∀ t ∈ s.tasks, ∀ ls, t.ph ≠ APhase.visiting ls)

/-- One step of the scenario preserves the invariant. -/
lemma scenInvA_step (g : PageGraph) (root : String) (ls0 : List String)
    (hf : g.fetch root = some ls0) (s s2 : AState)
    (hst : AStep g true false s s2) (hinv : scenInvA g root s) :
    scenInvA g root s2 := by
  cases hst with
  | insert i u h =>
    rcases hinv with ⟨hc, hlog, hsh⟩ | ⟨hc, hlog, hnv⟩
    · rcases hsh with ⟨ht, hv⟩ | ⟨ht, hv⟩ | ⟨ls, hls, ht, hv⟩
      · obtain ⟨hi, hu⟩ := get?_singleton _ _ i (ht ▸ h)
        obtain ⟨hu2, _⟩ := ATask.mk.injEq .. ▸ hu
        subst hi
        refine Or.inl ⟨hc, hlog, Or.inr (Or.inl ⟨?_, ?_⟩)⟩
        · simp [ht, hu2]
        · simp [hv, hu2]
      · obtain ⟨_, hu⟩ := get?_singleton _ _ i (ht ▸ h)
        exact absurd (congrArg ATask.ph hu) (by simp)
      · obtain ⟨_, hu⟩ := get?_singleton _ _ i (ht ▸ h)
        exact absurd (congrArg ATask.ph hu) (by simp)
    · refine Or.inr ⟨hc, hlog, ?_⟩
      intro t ht ls
      rcases List.mem_or_eq_of_mem_set ht with hmem | heq
      · exact hnv t hmem ls
      · simp [heq]
  | fetchFail i u h hfl =>
    rcases hinv with ⟨hc, hlog, hsh⟩ | ⟨hc, hlog, hnv⟩
    · rcases hsh with ⟨ht, hv⟩ | ⟨ht, hv⟩ | ⟨ls, hls, ht, hv⟩
      · obtain ⟨_, hu⟩ := get?_singleton _ _ i (ht ▸ h)
        exact absurd (congrArg ATask.ph hu) (by simp)
      · obtain ⟨_, hu⟩ := get?_singleton _ _ i (ht ▸ h)
        obtain ⟨hu2, _⟩ := ATask.mk.injEq .. ▸ hu
        rcases hfl with hcl | hnone
        · exact absurd (hc ▸ hcl) (by simp)
        · rw [hu2] at hnone
          rw [hnone] at hf
          exact Option.noConfusion hf
      · obtain ⟨_, hu⟩ := get?_singleton _ _ i (ht ▸ h)
        exact absurd (congrArg ATask.ph hu) (by simp)
    · refine Or.inr ⟨hc, hlog, ?_⟩
      intro t ht ls
      exact hnv t (List.eraseIdx_subset _ _ ht) ls
  | fetchOk i u ls h hc2 hfok =>
    rcases hinv with ⟨hc, hlog, hsh⟩ | ⟨hc, hlog, hnv⟩
    · rcases hsh with ⟨ht, hv⟩ | ⟨ht, hv⟩ | ⟨ls2, hls, ht, hv⟩
      · obtain ⟨_, hu⟩ := get?_singleton _ _ i (ht ▸ h)
        exact absurd (congrArg ATask.ph hu) (by simp)
      · obtain ⟨hi, hu⟩ := get?_singleton _ _ i (ht ▸ h)
        obtain ⟨hu2, _⟩ := ATask.mk.injEq .. ▸ hu
        subst hi
        refine Or.inl ⟨hc, hlog, Or.inr (Or.inr ⟨ls, hu2 ▸ hfok, ?_, hv⟩)⟩
        simp [ht, hu2]
      · obtain ⟨_, hu⟩ := get?_singleton _ _ i (ht ▸ h)
        exact absurd (congrArg ATask.ph hu) (by simp)
    · exact absurd (hc ▸ hc2) (by simp)
  | visit i u ls h =>
    rcases hinv with ⟨hc, hlog, hsh⟩ | ⟨hc, hlog, hnv⟩
    · rcases hsh with ⟨ht, hv⟩ | ⟨ht, hv⟩ | ⟨ls2, hls, ht, hv⟩
      · obtain ⟨_, hu⟩ := get?_singleton _ _ i (ht ▸ h)
        exact absurd (congrArg ATask.ph hu) (by simp)
      · obtain ⟨_, hu⟩ := get?_singleton _ _ i (ht ▸ h)
        exact absurd (congrArg ATask.ph hu) (by simp)
      · obtain ⟨hi, hu⟩ := get?_singleton _ _ i (ht ▸ h)
        have hu2 : u = root := congrArg ATask.url hu
        subst hi
        refine Or.inr ⟨by simp [hc], by simp [hlog, hu2], ?_⟩
        intro t htm ls3
        simp only [ht, List.set_cons_zero, List.mem_singleton] at htm
        simp [htm]
    · have := List.get?_mem h
      exact absurd rfl (hnv _ this ls)
  | scanSkip i u l rest h hs =>
    rcases hinv with ⟨hc, hlog, hsh⟩ | ⟨hc, hlog, hnv⟩
    · rcases hsh with ⟨ht, hv⟩ | ⟨ht, hv⟩ | ⟨ls2, hls, ht, hv⟩ <;>
      · obtain ⟨_, hu⟩ := get?_singleton _ _ i (ht ▸ h)
        exact absurd (congrArg ATask.ph hu) (by simp)
    · refine Or.inr ⟨hc, hlog, ?_⟩
      intro t htm ls
      rcases List.mem_or_eq_of_mem_set htm with hmem | heq
      · exact hnv t hmem ls
      · simp [heq]
  | scanAbort i u l rest h hm hd hc2 =>
    rcases hinv with ⟨hc, hlog, hsh⟩ | ⟨hc, hlog, hnv⟩
    · exact absurd (hc ▸ hc2) (by simp)
    · refine Or.inr ⟨hc, hlog, ?_⟩
      intro t htm ls
      exact hnv t (List.eraseIdx_subset _ _ htm) ls
  | scanSpawn i u l rest h hm hd hc2 =>
    rcases hinv with ⟨hc, hlog, hsh⟩ | ⟨hc, hlog, hnv⟩
    · rcases hsh with ⟨ht, hv⟩ | ⟨ht, hv⟩ | ⟨ls2, hls, ht, hv⟩ <;>
      · obtain ⟨_, hu⟩ := get?_singleton _ _ i (ht ▸ h)
        exact absurd (congrArg ATask.ph hu) (by simp)
    · exact absurd (hc ▸ hc2) (by simp)
  | finish i u h =>
    rcases hinv with ⟨hc, hlog, hsh⟩ | ⟨hc, hlog, hnv⟩
    · rcases hsh with ⟨ht, hv⟩ | ⟨ht, hv⟩ | ⟨ls2, hls, ht, hv⟩ <;>
      · obtain ⟨_, hu⟩ := get?_singleton _ _ i (ht ▸ h)
        exact absurd (congrArg ATask.ph hu) (by simp)
    · refine Or.inr ⟨hc, hlog, ?_⟩
      intro t htm ls
      exact hnv t (List.eraseIdx_subset _ _ htm) ls
  | cancelEnv he hc2 => exact absurd he (by simp)

/-- The invariant holds in every reachable state of the scenario. -/
lemma scenInvA_reach (g : PageGraph) (root : String) (ls0 : List String)
    (hf : g.fetch root = some ls0) (s : AState)
    (hr : ReachableA g true false root s) : scenInvA g root s := by
  induction hr with
  | refl => exact Or.inl ⟨rfl, rfl, Or.inl ⟨rfl, rfl⟩⟩
  | tail hs hst ih => exact scenInvA_step g root ls0 hf _ _ hst ih

/-- Progress for strategy A: any state with a live goroutine has a
successor (every phase of `recursiveVisit` always has an enabled next
action: insert, a fetch outcome, the visit, a loop iteration, or the
return). -/
lemma aProgress (g : PageGraph) (vc ec : Bool) (s : AState) (hne : s.tasks ≠ []) :
    ∃ s2, AStep g vc ec s s2 := by
  match hts : s.tasks with
  | [] => exact absurd hts hne
  | ⟨u, ph⟩ :: rest =>
    have h0 : s.tasks.get? 0 = some ⟨u, ph⟩ := by
      rw [hts]
      rfl
    cases ph with
    | start => exact ⟨_, AStep.insert s 0 u h0⟩
    | fetching =>
      cases hcv : s.cancelled with
      | true => exact ⟨_, AStep.fetchFail s 0 u h0 (Or.inl hcv)⟩
      | false =>
        match hfv : g.fetch u with
        | none => exact ⟨_, AStep.fetchFail s 0 u h0 (Or.inr hfv)⟩
        | some ls => exact ⟨_, AStep.fetchOk s 0 u ls h0 hcv hfv⟩
    | visiting ls => exact ⟨_, AStep.visit s 0 u ls h0⟩
    | scanning ls =>
      match ls with
      | [] => exact ⟨_, AStep.finish s 0 u h0⟩
      | l :: rest2 =>
        by_cases hs : l ∈ s.visited ∨ g.host l ≠ g.host u
        · exact ⟨_, AStep.scanSkip s 0 u l rest2 h0 hs⟩
        · push_neg at hs
          cases hcv : s.cancelled with
          | true => exact ⟨_, AStep.scanAbort s 0 u l rest2 h0 hs.1 hs.2 hcv⟩
          | false => exact ⟨_, AStep.scanSpawn s 0 u l rest2 h0 hs.1 hs.2 hcv⟩

/-- Without external cancellation, a strategy-A state with no live
goroutine has no successor: `wg.Wait()` has unblocked and the crawl is
over. -/
lemma aStuck_final (g : PageGraph) (vc : Bool) (s : AState) (hts : s.tasks = []) :
    ∀ s2, ¬ AStep g vc false s s2 := by
  intro s2 hst
  cases hst <;> simp_all

/-- Auxiliary: replacing the element at a held index shifts a mapped sum
by the difference of the two images. -/
lemma sum_map_set {α : Type} (w : α → Nat) (l : List α) (i : Nat) (t t2 : α)
    (h : l.get? i = some t) :
    ((l.set i t2).map w).sum + w t = (l.map w).sum + w t2 := by
  induction l generalizing i with
  | nil => simp at h
  | cons a l ih =>
    cases i with
    | zero =>
      rw [List.get?_cons_zero] at h
      injection h with h
      subst h
      simp only [List.set, List.map_cons, List.sum_cons]
      omega
    | succ n =>
      rw [List.get?_cons_succ] at h
      have := ih n h
      simp only [List.set, List.map_cons, List.sum_cons]
      omega

/-- Auxiliary: removing the element at a held index lowers a mapped sum
by its image. -/
lemma sum_map_eraseIdx {α : Type} (w : α → Nat) (l : List α) (i : Nat) (t : α)
    (h : l.get? i = some t) :
    ((l.eraseIdx i).map w).sum + w t = (l.map w).sum := by
  induction l generalizing i with
  | nil => simp at h
  | cons a l ih =>
    cases i with
    | zero =>
      rw [List.get?_cons_zero] at h
      injection h with h
      subst h
      simp only [List.eraseIdx, List.map_cons, List.sum_cons]
      omega
    | succ n =>
      rw [List.get?_cons_succ] at h
      have := ih n h
      simp only [List.eraseIdx, List.map_cons, List.sum_cons]
      omega

/-- Number of links a fetch of `u` yields (zero when the fetch fails). -/
def lenFetch (g : PageGraph) (u : String) : Nat :=
  match g.fetch u with
  | none => 0
  | some ls => ls.length

/-- Remaining work of one strategy-A goroutine: an upper bound on the
steps it can still take without spawning. -/
def wTask (g : PageGraph) (t : ATask) : Nat :=
  match t.ph with
  | .start => lenFetch g t.url + 5
  | .fetching => lenFetch g t.url + 4
  | .visiting ls => ls.length + 3
  | .scanning ls => ls.length + 1

/-- Total remaining work of a strategy-A state. -/
def measureA (g : PageGraph) (s : AState) : Nat :=
  (s.tasks.map (wTask g)).sum

/-- In the cancelling-visit scenario no goroutine ever spawns (the single
pre-visit task never scans, and afterwards the context is cancelled), so
every step strictly decreases the work measure. -/
lemma scenA_measure_decrease (g : PageGraph) (root : String) (s s2 : AState)
    (hinv : scenInvA g root s) (hst : AStep g true false s s2) :
    measureA g s2 < measureA g s := by
  cases hst with
  | insert i u h =>
    have hsum := sum_map_set (wTask g) s.tasks i _ ⟨u, .fetching⟩ h
    simp only [measureA]
    simp only [wTask] at hsum
    omega
  | fetchFail i u h hfl =>
    have hsum := sum_map_eraseIdx (wTask g) s.tasks i _ h
    simp only [measureA]
    simp only [wTask] at hsum
    omega
  | fetchOk i u ls h hc2 hfok =>
    have hsum := sum_map_set (wTask g) s.tasks i _ ⟨u, .visiting ls⟩ h
    have hlf : lenFetch g u = ls.length := by simp [lenFetch, hfok]
    simp only [measureA]
    simp only [wTask, hlf] at hsum
    omega
  | visit i u ls h =>
    have hsum := sum_map_set (wTask g) s.tasks i _ ⟨u, .scanning ls⟩ h
    simp only [measureA]
    simp only [wTask] at hsum
    omega
  | scanSkip i u l rest h hs =>
    have hsum := sum_map_set (wTask g) s.tasks i _ ⟨u, .scanning rest⟩ h
    simp only [measureA]
    simp only [wTask, List.length_cons] at hsum
    omega
  | scanAbort i u l rest h hm hd hc2 =>
    have hsum := sum_map_eraseIdx (wTask g) s.tasks i _ h
    simp only [measureA]
    simp only [wTask, List.length_cons] at hsum
    omega
  | scanSpawn i u l rest h hm hd hc2 =>
    rcases hinv with ⟨hc, hlog, hsh⟩ | ⟨hc, hlog, hnv⟩
    · rcases hsh with ⟨ht, hv⟩ | ⟨ht, hv⟩ | ⟨ls2, hls, ht, hv⟩ <;>
      · obtain ⟨_, hu⟩ := get?_singleton _ _ i (ht ▸ h)
        exact absurd (congrArg ATask.ph hu) (by simp)
    · rw [hc] at hc2
      exact Bool.noConfusion hc2
  | finish i u h =>
    have hsum := sum_map_eraseIdx (wTask g) s.tasks i _ h
    simp only [measureA]
    simp only [wTask] at hsum
    omega
  | cancelEnv he hc2 => exact absurd he (by simp)

/-- Invariant of strategy B in the cancelling-visit scenario: before the
first visit the system is in lockstep (seed batch pending, root being
dispatched, or the single root worker fetching or about to visit, with
the coordinator unable to reach the close because the live counter is
one); afterwards the context is cancelled, exactly the root has been
visited, and no worker is at the `visiting` phase. -/
def scenInvB (g : PageGraph) (root : String) (s : BState) : Prop :=
  (s.cancelled = false ∧ s.visitLog = [] ∧
    (s.cpc = .select ∧ s.ch = [[root]] ∧ s.workers = [] ∧ s.counter = 0 ∧ s.visited = [] ∨
     s.cpc = .dispatch [root] ∧ s.ch = [] ∧ s.workers = [] ∧ s.counter = 0 ∧ s.visited = [] ∨
     s.cpc = .acquire root [] ∧ s.ch = [] ∧ s.workers = [] ∧ s.counter = 1 ∧
       s.visited = [root] ∨
     (s.cpc = .dispatch [] ∨ s.cpc = .select ∨ s.cpc = .defaultCheck ∨
        s.cpc = .blockedRead) ∧
       s.ch = [] ∧ s.counter = 1 ∧ s.visited = [root] ∧
       (s.workers = [⟨root, .fetching⟩] ∨
        ∃ ls, g.fetch root = some ls ∧ s.workers = [⟨root, .visiting ls⟩]))) ∨
  (s.cancelled = true ∧ s.visitLog = [root] ∧
    ∀ w ∈ s.workers, ∀ ls, w.ph ≠ WPhase.visiting ls)

/-- One step of the scenario preserves the invariant. -/
lemma scenInvB_step (g : PageGraph) (root : String) (ls0 : List String) (mc : Nat)
    (hf : g.fetch root = some ls0) (s s2 : BState)
    (hst : BStep g true false mc s s2) (hinv : scenInvB g root s) :
    scenInvB g root s2 := by
  cases hst with
  | consume b rest hcr hpc hch =>
    rcases hinv with ⟨hc, hlog, hsh⟩ | ⟨hc, hlog, hnv⟩
    · rcases hsh with ⟨h1, h2, h3, h4, h5⟩ | ⟨h1, h2, h3, h4, h5⟩ |
        ⟨h1, h2, h3, h4, h5⟩ | ⟨h1, h2, h3, h4, h5⟩
      · rw [h2] at hch
        obtain ⟨hb, hrest⟩ := List.cons.injEq .. ▸ hch
        subst hb
        subst hrest
        exact Or.inl ⟨hc, hlog, Or.inr (Or.inl ⟨rfl, rfl, h3, h4, h5⟩)⟩
      · rw [h1] at hpc
        exact absurd hpc (by simp)
      · rw [h1] at hpc
        exact absurd hpc (by simp)
      · rw [h2] at hch
        exact List.noConfusion hch
    · exact Or.inr ⟨hc, hlog, hnv⟩
  | selectCancel hcr hpc hc2 =>
    rcases hinv with ⟨hc, hlog, hsh⟩ | ⟨hc, hlog, hnv⟩
    · rw [hc2] at hc
      exact Bool.noConfusion hc
    · exact Or.inr ⟨hc, hlog, hnv⟩
  | selectDefault hcr hpc hch hc2 =>
    rcases hinv with ⟨hc, hlog, hsh⟩ | ⟨hc, hlog, hnv⟩
    · rcases hsh with ⟨h1, h2, h3, h4, h5⟩ | ⟨h1, h2, h3, h4, h5⟩ |
        ⟨h1, h2, h3, h4, h5⟩ | ⟨h1, h2, h3, h4, h5⟩
      · rw [h2] at hch
        exact List.noConfusion hch
      · rw [h1] at hpc
        exact absurd hpc (by simp)
      · rw [h1] at hpc
        exact absurd hpc (by simp)
      · exact Or.inl ⟨hc, hlog,
          Or.inr (Or.inr (Or.inr ⟨Or.inr (Or.inr (Or.inl rfl)), h2, h3, h4, h5⟩))⟩
    · exact Or.inr ⟨hc, hlog, hnv⟩
  | checkZero hcr hpc hn =>
    rcases hinv with ⟨hc, hlog, hsh⟩ | ⟨hc, hlog, hnv⟩
    · rcases hsh with ⟨h1, h2, h3, h4, h5⟩ | ⟨h1, h2, h3, h4, h5⟩ |
        ⟨h1, h2, h3, h4, h5⟩ | ⟨h1, h2, h3, h4, h5⟩
      · rw [h1] at hpc
        exact absurd hpc (by simp)
      · rw [h1] at hpc
        exact absurd hpc (by simp)
      · rw [h1] at hpc
        exact absurd hpc (by simp)
      · rw [h3] at hn
        exact Nat.noConfusion hn
    · exact Or.inr ⟨hc, hlog, hnv⟩
  | checkBusy hcr hpc hn =>
    rcases hinv with ⟨hc, hlog, hsh⟩ | ⟨hc, hlog, hnv⟩
    · rcases hsh with ⟨h1, h2, h3, h4, h5⟩ | ⟨h1, h2, h3, h4, h5⟩ |
        ⟨h1, h2, h3, h4, h5⟩ | ⟨h1, h2, h3, h4, h5⟩
      · rw [h1] at hpc
        exact absurd hpc (by simp)
      · rw [h1] at hpc
        exact absurd hpc (by simp)
      · rw [h1] at hpc
        exact absurd hpc (by simp)
      · exact Or.inl ⟨hc, hlog,
          Or.inr (Or.inr (Or.inr ⟨Or.inr (Or.inr (Or.inr rfl)), h2, h3, h4, h5⟩))⟩
    · exact Or.inr ⟨hc, hlog, hnv⟩
  | blockedConsume b rest hcr hpc hch =>
    rcases hinv with ⟨hc, hlog, hsh⟩ | ⟨hc, hlog, hnv⟩
    · rcases hsh with ⟨h1, h2, h3, h4, h5⟩ | ⟨h1, h2, h3, h4, h5⟩ |
        ⟨h1, h2, h3, h4, h5⟩ | ⟨h1, h2, h3, h4, h5⟩
      · rw [h1] at hpc
        exact absurd hpc (by simp)
      · rw [h1] at hpc
        exact absurd hpc (by simp)
      · rw [h1] at hpc
        exact absurd hpc (by simp)
      · rw [h2] at hch
        exact List.noConfusion hch
    · exact Or.inr ⟨hc, hlog, hnv⟩
  | dispatchSkip u rest hcr hpc hv =>
    rcases hinv with ⟨hc, hlog, hsh⟩ | ⟨hc, hlog, hnv⟩
    · rcases hsh with ⟨h1, h2, h3, h4, h5⟩ | ⟨h1, h2, h3, h4, h5⟩ |
        ⟨h1, h2, h3, h4, h5⟩ | ⟨h1, h2, h3, h4, h5⟩
      · rw [h1] at hpc
        exact absurd hpc (by simp)
      · rw [h1] at hpc
        have hu : root = u := by
          have := CoordPC.dispatch.injEq .. ▸ hpc.symm
          exact (List.cons.injEq .. ▸ this).1.symm
        rw [h5, ← hu] at hv
        exact absurd hv (by simp)
      · rw [h1] at hpc
        exact absurd hpc (by simp)
      · rcases h1 with h1 | h1 | h1 | h1 <;> rw [h1] at hpc <;>
          first
          | exact absurd (CoordPC.dispatch.injEq .. ▸ hpc.symm) (by simp)
          | exact absurd hpc (by simp)
    · exact Or.inr ⟨hc, hlog, hnv⟩
  | dispatchMark u rest hcr hpc hv =>
    rcases hinv with ⟨hc, hlog, hsh⟩ | ⟨hc, hlog, hnv⟩
    · rcases hsh with ⟨h1, h2, h3, h4, h5⟩ | ⟨h1, h2, h3, h4, h5⟩ |
        ⟨h1, h2, h3, h4, h5⟩ | ⟨h1, h2, h3, h4, h5⟩
      · rw [h1] at hpc
        exact absurd hpc (by simp)
      · rw [h1] at hpc
        have := CoordPC.dispatch.injEq .. ▸ hpc.symm
        obtain ⟨hu, hrest⟩ := List.cons.injEq .. ▸ this
        subst hu
        subst hrest
        refine Or.inl ⟨hc, hlog, Or.inr (Or.inr (Or.inl ⟨rfl, h2, h3, by simp [h4], ?_⟩))⟩
        simp [h5]
      · rw [h1] at hpc
        exact absurd hpc (by simp)
      · rcases h1 with h1 | h1 | h1 | h1 <;> rw [h1] at hpc <;>
          first
          | exact absurd (CoordPC.dispatch.injEq .. ▸ hpc.symm) (by simp)
          | exact absurd hpc (by simp)
    · exact Or.inr ⟨hc, hlog, hnv⟩
  | acquireTok u rest hcr hpc ht =>
    rcases hinv with ⟨hc, hlog, hsh⟩ | ⟨hc, hlog, hnv⟩
    · rcases hsh with ⟨h1, h2, h3, h4, h5⟩ | ⟨h1, h2, h3, h4, h5⟩ |
        ⟨h1, h2, h3, h4, h5⟩ | ⟨h1, h2, h3, h4, h5⟩
      · rw [h1] at hpc
        exact absurd hpc (by simp)
      · rw [h1] at hpc
        exact absurd hpc (by simp)
      · rw [h1] at hpc
        obtain ⟨hu, hrest⟩ := CoordPC.acquire.injEq .. ▸ hpc.symm
        subst hu
        subst hrest
        refine Or.inl ⟨hc, hlog, Or.inr (Or.inr (Or.inr
          ⟨Or.inl rfl, h2, h4, h5, Or.inl ?_⟩))⟩
        simp [h3]
      · rcases h1 with h1 | h1 | h1 | h1 <;> rw [h1] at hpc <;> exact absurd hpc (by simp)
    · refine Or.inr ⟨hc, hlog, ?_⟩
      intro w hw ls
      rcases List.mem_append.mp hw with hmem | hmem
      · exact hnv w hmem ls
      · rw [List.mem_singleton.mp hmem]
        simp
  | dispatchDone hcr hpc =>
    rcases hinv with ⟨hc, hlog, hsh⟩ | ⟨hc, hlog, hnv⟩
    · rcases hsh with ⟨h1, h2, h3, h4, h5⟩ | ⟨h1, h2, h3, h4, h5⟩ |
        ⟨h1, h2, h3, h4, h5⟩ | ⟨h1, h2, h3, h4, h5⟩
      · rw [h1] at hpc
        exact absurd hpc (by simp)
      · rw [h1] at hpc
        exact absurd (CoordPC.dispatch.injEq .. ▸ hpc.symm) (by simp)
      · rw [h1] at hpc
        exact absurd hpc (by simp)
      · exact Or.inl ⟨hc, hlog,
          Or.inr (Or.inr (Or.inr ⟨Or.inr (Or.inl rfl), h2, h3, h4, h5⟩))⟩
    · exact Or.inr ⟨hc, hlog, hnv⟩
  | closeCh hcr hpc =>
    rcases hinv with ⟨hc, hlog, hsh⟩ | ⟨hc, hlog, hnv⟩
    · rcases hsh with ⟨h1, h2, h3, h4, h5⟩ | ⟨h1, h2, h3, h4, h5⟩ |
        ⟨h1, h2, h3, h4, h5⟩ | ⟨h1, h2, h3, h4, h5⟩
      · rw [h1] at hpc
        exact absurd hpc (by simp)
      · rw [h1] at hpc
        exact absurd hpc (by simp)
      · rw [h1] at hpc
        exact absurd hpc (by simp)
      · rcases h1 with h1 | h1 | h1 | h1 <;> rw [h1] at hpc <;> exact absurd hpc (by simp)
    · exact Or.inr ⟨hc, hlog, hnv⟩
  | retNil hcr hpc =>
    rcases hinv with ⟨hc, hlog, hsh⟩ | ⟨hc, hlog, hnv⟩
    · rcases hsh with ⟨h1, h2, h3, h4, h5⟩ | ⟨h1, h2, h3, h4, h5⟩ |
        ⟨h1, h2, h3, h4, h5⟩ | ⟨h1, h2, h3, h4, h5⟩
      · rw [h1] at hpc
        exact absurd hpc (by simp)
      · rw [h1] at hpc
        exact absurd hpc (by simp)
      · rw [h1] at hpc
        exact absurd hpc (by simp)
      · rcases h1 with h1 | h1 | h1 | h1 <;> rw [h1] at hpc <;> exact absurd hpc (by simp)
    · exact Or.inr ⟨hc, hlog, hnv⟩
  | wFetchFail i u hcr hw hfl =>
    rcases hinv with ⟨hc, hlog, hsh⟩ | ⟨hc, hlog, hnv⟩
    · rcases hsh with ⟨h1, h2, h3, h4, h5⟩ | ⟨h1, h2, h3, h4, h5⟩ |
        ⟨h1, h2, h3, h4, h5⟩ | ⟨h1, h2, h3, h4, h5⟩
      · rw [h3] at hw
        simp at hw
      · rw [h3] at hw
        simp at hw
      · rw [h3] at hw
        simp at hw
      · rcases h5 with h5 | ⟨ls, hls, h5⟩
        · obtain ⟨hi, hu⟩ := get?_singleton _ _ i (h5 ▸ hw)
          have hu2 : u = root := congrArg BWorker.url hu
          rcases hfl with hcl | hnone
          · rw [hc] at hcl
            exact Bool.noConfusion hcl
          · rw [hu2, hf] at hnone
            exact Option.noConfusion hnone
        · obtain ⟨hi, hu⟩ := get?_singleton _ _ i (h5 ▸ hw)
          exact absurd (congrArg BWorker.ph hu) (by simp)
    · refine Or.inr ⟨hc, hlog, ?_⟩
      intro w hwm ls
      rcases List.mem_or_eq_of_mem_set hwm with hmem | heq
      · exact hnv w hmem ls
      · simp [heq]
  | wFetchOk i u ls hcr hw hc2 hfok =>
    rcases hinv with ⟨hc, hlog, hsh⟩ | ⟨hc, hlog, hnv⟩
    · rcases hsh with ⟨h1, h2, h3, h4, h5⟩ | ⟨h1, h2, h3, h4, h5⟩ |
        ⟨h1, h2, h3, h4, h5⟩ | ⟨h1, h2, h3, h4, h5⟩
      · rw [h3] at hw
        simp at hw
      · rw [h3] at hw
        simp at hw
      · rw [h3] at hw
        simp at hw
      · rcases h5 with h5 | ⟨ls2, hls, h5⟩
        · obtain ⟨hi, hu⟩ := get?_singleton _ _ i (h5 ▸ hw)
          have hu2 : u = root := congrArg BWorker.url hu
          subst hi
          refine Or.inl ⟨hc, hlog, Or.inr (Or.inr (Or.inr
            ⟨h1, h2, h3, h4, Or.inr ⟨ls, hu2 ▸ hfok, ?_⟩⟩))⟩
          simp [h5, hu2]
        · obtain ⟨hi, hu⟩ := get?_singleton _ _ i (h5 ▸ hw)
          exact absurd (congrArg BWorker.ph hu) (by simp)
    · rw [hc] at hc2
      exact Bool.noConfusion hc2
  | wVisit i u ls hcr hw =>
    rcases hinv with ⟨hc, hlog, hsh⟩ | ⟨hc, hlog, hnv⟩
    · rcases hsh with ⟨h1, h2, h3, h4, h5⟩ | ⟨h1, h2, h3, h4, h5⟩ |
        ⟨h1, h2, h3, h4, h5⟩ | ⟨h1, h2, h3, h4, h5⟩
      · rw [h3] at hw
        simp at hw
      · rw [h3] at hw
        simp at hw
      · rw [h3] at hw
        simp at hw
      · rcases h5 with h5 | ⟨ls2, hls, h5⟩
        · obtain ⟨hi, hu⟩ := get?_singleton _ _ i (h5 ▸ hw)
          exact absurd (congrArg BWorker.ph hu) (by simp)
        · obtain ⟨hi, hu⟩ := get?_singleton _ _ i (h5 ▸ hw)
          have hu2 : u = root := congrArg BWorker.url hu
          subst hi
          refine Or.inr ⟨by simp [hc], by simp [hlog, hu2], ?_⟩
          intro w hwm ls3
          simp only [h5, List.set_cons_zero, List.mem_singleton] at hwm
          simp [hwm]
    · have := List.get?_mem hw
      exact absurd rfl (hnv _ this ls)
  | wPush i u b hcr hw hcl hlen =>
    rcases hinv with ⟨hc, hlog, hsh⟩ | ⟨hc, hlog, hnv⟩
    · rcases hsh with ⟨h1, h2, h3, h4, h5⟩ | ⟨h1, h2, h3, h4, h5⟩ |
        ⟨h1, h2, h3, h4, h5⟩ | ⟨h1, h2, h3, h4, h5⟩
      · rw [h3] at hw
        simp at hw
      · rw [h3] at hw
        simp at hw
      · rw [h3] at hw
        simp at hw
      · rcases h5 with h5 | ⟨ls2, hls, h5⟩ <;>
        · obtain ⟨hi, hu⟩ := get?_singleton _ _ i (h5 ▸ hw)
          exact absurd (congrArg BWorker.ph hu) (by simp)
    · refine Or.inr ⟨hc, hlog, ?_⟩
      intro w hwm ls
      rcases List.mem_or_eq_of_mem_set hwm with hmem | heq
      · exact hnv w hmem ls
      · simp [heq]
  | wPushPanic i u b hcr hw hcl =>
    rcases hinv with ⟨hc, hlog, hsh⟩ | ⟨hc, hlog, hnv⟩
    · rcases hsh with ⟨h1, h2, h3, h4, h5⟩ | ⟨h1, h2, h3, h4, h5⟩ |
        ⟨h1, h2, h3, h4, h5⟩ | ⟨h1, h2, h3, h4, h5⟩
      · rw [h3] at hw
        simp at hw
      · rw [h3] at hw
        simp at hw
      · rw [h3] at hw
        simp at hw
      · rcases h5 with h5 | ⟨ls2, hls, h5⟩ <;>
        · obtain ⟨hi, hu⟩ := get?_singleton _ _ i (h5 ▸ hw)
          exact absurd (congrArg BWorker.ph hu) (by simp)
    · refine Or.inr ⟨hc, hlog, ?_⟩
      intro w hwm ls
      exact hnv w (List.eraseIdx_subset _ _ hwm) ls
  | wExit i u hcr hw =>
    rcases hinv with ⟨hc, hlog, hsh⟩ | ⟨hc, hlog, hnv⟩
    · rcases hsh with ⟨h1, h2, h3, h4, h5⟩ | ⟨h1, h2, h3, h4, h5⟩ |
        ⟨h1, h2, h3, h4, h5⟩ | ⟨h1, h2, h3, h4, h5⟩
      · rw [h3] at hw
        simp at hw
      · rw [h3] at hw
        simp at hw
      · rw [h3] at hw
        simp at hw
      · rcases h5 with h5 | ⟨ls2, hls, h5⟩ <;>
        · obtain ⟨hi, hu⟩ := get?_singleton _ _ i (h5 ▸ hw)
          exact absurd (congrArg BWorker.ph hu) (by simp)
    · refine Or.inr ⟨hc, hlog, ?_⟩
      intro w hwm ls
      exact hnv w (List.eraseIdx_subset _ _ hwm) ls
  | cancelEnvB hcr he hc2 => exact absurd he (by simp)

/-- The invariant holds in every reachable state of the scenario. -/
lemma scenInvB_reach (g : PageGraph) (root : String) (ls0 : List String) (mc : Nat)
    (hf : g.fetch root = some ls0) (s : BState)
    (hr : ReachableB g true false mc root s) : scenInvB g root s := by
  induction hr with
  | refl => exact Or.inl ⟨rfl, rfl, Or.inl ⟨rfl, rfl, rfl, rfl, rfl⟩⟩
  | tail hs hst ih => exact scenInvB_step g root ls0 mc hf _ _ hst ih

/-- C3 (amended): once cancellation is set, strategy A never creates a new
task (the per-link `select` always observes `ctx.Done()`), and once the
strategy-B coordinator has observed cancellation and left its loop no new
worker is ever dispatched; in the scenario where the visit callback
cancels on every visit and the root fetch succeeds, at most one page is
ever visited under both strategies, every halted strategy-A state is a
completed crawl that has visited exactly the root and returns nil, every
strategy-A execution of the scenario halts (there is no infinite run),
and a strategy-B run whose coordinator returns has visited exactly the
root and returned nil — but (see the counterexample) a strategy-B run may
instead crash between the close and the return and never return at
all. -/
theorem C3_cancellation_amended :
    (∀ (g : PageGraph) (vc ec : Bool) (s s2 : AState), AStep g vc ec s s2 →
      s.cancelled = true → s2.tasks.length ≤ s.tasks.length) ∧
    (∀ (g : PageGraph) (vc ec : Bool) (mc : Nat) (s s2 : BState), BStep g vc ec mc s s2 →
      s.cpc = .atClose ∨ s.cpc = .atReturn ∨ s.cpc = .done →
      s2.workers.length ≤ s.workers.length ∧
        (s2.cpc = .atClose ∨ s2.cpc = .atReturn ∨ s2.cpc = .done)) ∧
    (∀ (g : PageGraph) (root : String) (ls0 : List String), g.fetch root = some ls0 →
      ∀ s, ReachableA g true false root s →
        s.visitLog.length ≤ 1 ∧
        (s.tasks = [] → s.visitLog = [root] ∧ CrawlAResult s = some none)) ∧
    (∀ (g : PageGraph) (root : String) (ls0 : List String) (mc : Nat),
      g.fetch root = some ls0 →
      ∀ s, ReachableB g true false mc root s →
        s.visitLog.length ≤ 1 ∧
        (s.cpc = .done → s.visitLog = [root] ∧ CrawlBResult s = some none)) ∧
    (∀ (g : PageGraph) (root : String) (ls0 : List String), g.fetch root = some ls0 →
      ∀ s, ReachableA g true false root s → (∀ s2, ¬ AStep g true false s s2) →
        s.tasks = [] ∧ s.visitLog = [root] ∧ CrawlAResult s = some none) ∧
    (∀ (g : PageGraph) (root : String) (ls0 : List String), g.fetch root = some ls0 →
      ∀ f : Nat → AState, f 0 = initA root →
        ¬ (∀ n, AStep g true false (f n) (f (n + 1)))) := by
  refine ⟨?_, ?_, ?_, ?_, ?_, ?_⟩
  · intro g vc ec s s2 hst hc
    cases hst with
    | insert i u h => simp [List.length_set]
    | fetchFail i u h hfl => exact length_eraseIdx_le _ _
    | fetchOk i u ls h hc2 hfok =>
      rw [hc] at hc2
      exact Bool.noConfusion hc2
    | visit i u ls h => simp [List.length_set]
    | scanSkip i u l rest h hs => simp [List.length_set]
    | scanAbort i u l rest h hm hd hc2 => exact length_eraseIdx_le _ _
    | scanSpawn i u l rest h hm hd hc2 =>
      rw [hc] at hc2
      exact Bool.noConfusion hc2
    | finish i u h => exact length_eraseIdx_le _ _
    | cancelEnv he hc2 => exact Nat.le_refl _
  · intro g vc ec mc s s2 hst hpc3
    cases hst with
    | consume b rest hcr hpc hch =>
      rcases hpc3 with h | h | h <;> rw [hpc] at h <;> exact absurd h (by simp)
    | selectCancel hcr hpc hc =>
      rcases hpc3 with h | h | h <;> rw [hpc] at h <;> exact absurd h (by simp)
    | selectDefault hcr hpc hch hc =>
      rcases hpc3 with h | h | h <;> rw [hpc] at h <;> exact absurd h (by simp)
    | checkZero hcr hpc hn =>
      rcases hpc3 with h | h | h <;> rw [hpc] at h <;> exact absurd h (by simp)
    | checkBusy hcr hpc hn =>
      rcases hpc3 with h | h | h <;> rw [hpc] at h <;> exact absurd h (by simp)
    | blockedConsume b rest hcr hpc hch =>
      rcases hpc3 with h | h | h <;> rw [hpc] at h <;> exact absurd h (by simp)
    | dispatchSkip u rest hcr hpc hv =>
      rcases hpc3 with h | h | h <;> rw [hpc] at h <;> exact absurd h (by simp)
    | dispatchMark u rest hcr hpc hv =>
      rcases hpc3 with h | h | h <;> rw [hpc] at h <;> exact absurd h (by simp)
    | acquireTok u rest hcr hpc ht =>
      rcases hpc3 with h | h | h <;> rw [hpc] at h <;> exact absurd h (by simp)
    | dispatchDone hcr hpc =>
      rcases hpc3 with h | h | h <;> rw [hpc] at h <;> exact absurd h (by simp)
    | closeCh hcr hpc => exact ⟨Nat.le_refl _, Or.inr (Or.inl rfl)⟩
    | retNil hcr hpc => exact ⟨Nat.le_refl _, Or.inr (Or.inr rfl)⟩
    | wFetchFail i u hcr hw hfl => exact ⟨by simp [List.length_set], hpc3⟩
    | wFetchOk i u ls hcr hw hc hfok => exact ⟨by simp [List.length_set], hpc3⟩
    | wVisit i u ls hcr hw => exact ⟨by simp [List.length_set], hpc3⟩
    | wPush i u b hcr hw hcl hlen => exact ⟨by simp [List.length_set], hpc3⟩
    | wPushPanic i u b hcr hw hcl => exact ⟨length_eraseIdx_le _ _, hpc3⟩
    | wExit i u hcr hw => exact ⟨length_eraseIdx_le _ _, hpc3⟩
    | cancelEnvB hcr he hc => exact ⟨Nat.le_refl _, hpc3⟩
  · intro g root ls0 hf s hr
    have hinv := scenInvA_reach g root ls0 hf s hr
    rcases hinv with ⟨hc, hlog, hsh⟩ | ⟨hc, hlog, hnv⟩
    · refine ⟨by simp [hlog], ?_⟩
      intro hts
      rcases hsh with ⟨ht, _⟩ | ⟨ht, _⟩ | ⟨ls, _, ht, _⟩ <;> rw [hts] at ht <;>
        exact List.noConfusion ht
    · exact ⟨by simp [hlog], fun hts => ⟨hlog, by simp [CrawlAResult, hts]⟩⟩
  · intro g root ls0 mc hf s hr
    have hinv := scenInvB_reach g root ls0 mc hf s hr
    rcases hinv with ⟨hc, hlog, hsh⟩ | ⟨hc, hlog, hnv⟩
    · refine ⟨by simp [hlog], ?_⟩
      intro hdone
      rcases hsh with ⟨h1, _⟩ | ⟨h1, _⟩ | ⟨h1, _⟩ | ⟨h1, _⟩
      · rw [hdone] at h1
        exact absurd h1 (by simp)
      · rw [hdone] at h1
        exact absurd h1 (by simp)
      · rw [hdone] at h1
        exact absurd h1 (by simp)
      · rcases h1 with h1 | h1 | h1 | h1 <;> rw [hdone] at h1 <;> exact absurd h1 (by simp)
    · exact ⟨by simp [hlog], fun hdone => ⟨hlog, by simp [CrawlBResult, hdone]⟩⟩
  · intro g root ls0 hf s hr hstuck
    have hts : s.tasks = [] := by
      by_contra hne
      obtain ⟨s2, hs2⟩ := aProgress g true false s hne
      exact hstuck s2 hs2
    have hinv := scenInvA_reach g root ls0 hf s hr
    rcases hinv with ⟨hc, hlog, hsh⟩ | ⟨hc, hlog, hnv⟩
    · rcases hsh with ⟨ht, _⟩ | ⟨ht, _⟩ | ⟨ls, _, ht, _⟩ <;> rw [hts] at ht <;>
        exact List.noConfusion ht
    · exact ⟨hts, hlog, by simp [CrawlAResult, hts]⟩
  · intro g root ls0 hf f h0 hstep
    have hreach : ∀ n, ReachableA g true false root (f n) := by
      intro n
      induction n with
      | zero =>
        rw [h0]
        exact Relation.ReflTransGen.refl
      | succ n ih => exact Relation.ReflTransGen.tail ih (hstep n)
    have hdec : ∀ n, measureA g (f (n + 1)) < measureA g (f n) := fun n =>
      scenA_measure_decrease g root _ _ (scenInvA_reach g root ls0 hf _ (hreach n))
        (hstep n)
    have key : ∀ n, measureA g (f n) + n ≤ measureA g (f 0) := by
      intro n
      induction n with
      | zero => simp
      | succ n ih =>
        have := hdec n
        omega
    have := key (measureA g (f 0) + 1)
    omega

/-- The strategy-B schedule used by the C3 witness: the root worker
visits (cancelling), pushes its batch and exits; the coordinator consumes
the batch and dispatches `a`, whose fetch fails under the cancelled
context; with the channel drained and no workers left the coordinator
observes the cancellation, closes the channel and returns nil. -/
def c3WitnessScheduleB : List BChoice :=
  [.co, .co, .co, .co, .w 0, .w 0, .w 0, .w 0,
   .co, .co, .co, .co, .w 0, .w 0, .co, .co, .co]

/-- C3 witness: the no-new-task clause applied to one concrete cancelled
step, and the completion clauses applied to concrete completed runs of
both strategies on a concrete two-page site (strategy A halts by
`scanAbort`, strategy B reaches `done` after the post-cancellation fetch
of `a` fails). -/
theorem C3_cancellation_witness :
    ((⟨["r"], [], true, ["r"], ["r"]⟩ : AState)).tasks.length ≤
      ((⟨["r"], [⟨"r", .scanning []⟩], true, ["r"], ["r"]⟩ : AState)).tasks.length ∧
    ((⟨["r"], [], true, ["r"], ["r"]⟩ : AState)).visitLog = ["r"] ∧
    CrawlAResult ⟨["r"], [], true, ["r"], ["r"]⟩ = some none ∧
    ((⟨["a", "r"], [], true, 0, 0, [], .done, true, false, ["r"],
        ["a", "r"]⟩ : BState)).visitLog = ["r"] ∧
    CrawlBResult ⟨["a", "r"], [], true, 0, 0, [], .done, true, false, ["r"],
        ["a", "r"]⟩ = some none := by
  have hrunA : runA gLinkOne true false (initA "r") [some 0, some 0, some 0, some 0] =
      some ⟨["r"], [], true, ["r"], ["r"]⟩ := by decide
  have hA := C3_cancellation_amended.2.2.2.2.1 gLinkOne "r" ["a"] rfl _
    (runA_sound gLinkOne true false _ _ _ hrunA) (aStuck_final gLinkOne true _ rfl)
  have hrunB : runB gLinkOne true false 1 (initB "r") c3WitnessScheduleB =
      some ⟨["a", "r"], [], true, 0, 0, [], .done, true, false, ["r"], ["a", "r"]⟩ := by
    decide
  have hB := (C3_cancellation_amended.2.2.2.1 gLinkOne "r" ["a"] 1 rfl _
    (runB_sound gLinkOne true false 1 _ _ _ hrunB)).2 rfl
  have h1 := C3_cancellation_amended.1 gLinkOne true false
    (⟨["r"], [⟨"r", .scanning []⟩], true, ["r"], ["r"]⟩ : AState) _
    (AStep.finish _ 0 "r" (by decide)) rfl
  exact ⟨h1, hA.2.1, hA.2.2, hB.1, hB.2⟩

/-- C9 counterexample: with a non-null root whose fetch fails, strategy B
has an interleaving in which `Crawl` never returns at all (the
coordinator is blocked forever on the candidate channel), so it is not
the case that in every case other than a null root `Crawl` returns nil. -/
theorem C9_nonreturn_counterexample :
    gFailRoot.fetch "r" = none ∧
    ∃ s, ReachableB gFailRoot false false 1 "r" s ∧
      s.fetchLog = ["r"] ∧ CrawlBResult s = none ∧
      ∀ s2, ¬ BStep gFailRoot false false 1 s s2 := by
  refine ⟨rfl, ?_⟩
  obtain ⟨s, hs, hp⟩ := checkRunB_sound gFailRoot false false 1 "r" c9Schedule
    (fun s => decide (s.fetchLog = ["r"] ∧ s.cpc = .blockedRead ∧ s.ch = [] ∧
      s.workers = []))
    (by decide)
  obtain ⟨h1, h2, h3, h4⟩ := of_decide_eq_true hp
  exact ⟨s, hs, h1, by simp [CrawlBResult, h2],
    bStuck_final gFailRoot false 1 s h4 (Or.inl ⟨h2, h3⟩)⟩

/-- C9 (amended): under both strategies `Crawl` fails immediately, and
with the `nil base URL cannot be crawled` error, exactly when the root
URL is null, performing no work (no crawl state is even created);
whenever a run returns, the returned error is nil, for both strategies
and regardless of cancellation or fetch failures — however, in strategy
B some runs never return: with a failing root fetch there is a reachable
state that has no successor and in which `Crawl` has not returned. -/
theorem C9_error_iff_nil_root_amended :
    crawlA none = .error "nil base URL cannot be crawled" ∧
    crawlB none = .error "nil base URL cannot be crawled" ∧
    (∀ u, crawlA (some u) = .ok (initA u)) ∧
    (∀ u, crawlB (some u) = .ok (initB u)) ∧
    (∀ (g : PageGraph) (vc ec : Bool) (root : String) (s : AState) (e : Option String),
      ReachableA g vc ec root s → CrawlAResult s = some e → e = none) ∧
    (∀ (g : PageGraph) (vc ec : Bool) (mc : Nat) (root : String) (s : BState)
      (e : Option String),
      ReachableB g vc ec mc root s → CrawlBResult s = some e → e = none) ∧
    (∃ s, ReachableB gFailRoot false false 1 "r" s ∧ CrawlBResult s = none ∧
      ∀ s2, ¬ BStep gFailRoot false false 1 s s2) := by
  refine ⟨rfl, rfl, fun u => rfl, fun u => rfl, ?_, ?_, ?_⟩
  · intro g vc ec root s e _ hres
    unfold CrawlAResult at hres
    split at hres
    · exact (Option.some.injEq .. ▸ hres).symm
    · exact Option.noConfusion hres
  · intro g vc ec mc root s e _ hres
    unfold CrawlBResult at hres
    split at hres
    · exact (Option.some.injEq .. ▸ hres).symm
    · exact Option.noConfusion hres
  · obtain ⟨s, hs, hp⟩ := checkRunB_sound gFailRoot false false 1 "r" c9Schedule
      (fun s => decide (s.cpc = .blockedRead ∧ s.ch = [] ∧ s.workers = []))
      (by decide)
    obtain ⟨h1, h2, h3⟩ := of_decide_eq_true hp
    exact ⟨s, hs, by simp [CrawlBResult, h1],
      bStuck_final gFailRoot false 1 s h3 (Or.inl ⟨h1, h2⟩)⟩

/-- C9 witness: the returns-nil clause applied to a completed concrete
strategy-A run, and the non-null entry clause applied to a concrete
root. -/
theorem C9_error_iff_nil_root_witness :
    (none : Option String) = none ∧ crawlA (some "r") = .ok (initA "r") := by
  constructor
  · have hrun : runA gEmpty false false (initA "r") [some 0, some 0, some 0, some 0] =
        some ⟨["r"], [], false, ["r"], ["r"]⟩ := by decide
    exact C9_error_iff_nil_root_amended.2.2.2.2.1 gEmpty false false "r" _ none
      (runA_sound _ _ _ _ _ _ hrun) (by decide)
  · exact C9_error_iff_nil_root_amended.2.2.1 "r"

end WebCrawler
